import Mathlib

/-!
Verification development for the PLR (pupillary light reflex) analysis pipeline
(`plr.py`, `plr_pipeline.py`).

The numeric domain of the Python code is IEEE double as used by numpy/pandas,
where missing data is represented by NaN, division by zero yields signed
infinity, and every comparison involving NaN is false.  We model the value
domain by `PFloat` (exact rationals plus `nan`, `inf`, `ninf`) and translate
the pandas/numpy operations used by the source (elementwise arithmetic,
`mean(skipna)`, `max`/`min(skipna)`, `diff`, centered rolling windows,
label-interval restriction, `idxmax` on booleans) into executable Lean
functions over `List PFloat`.

`np.sqrt` is modelled by an abstract function `s : ℚ → ℚ` applied to
non-negative finite arguments (with NaN for negative arguments, and
`nan`/`inf` propagated), so the theorems hold for every model of square root;
hypotheses such as `∀ q, 0 ≤ q → 0 ≤ s q` record the properties of the real
`np.sqrt` that a proof actually uses.  Likewise `scipy.signal.savgol_filter`
(a linear filter external to this repository) enters as an abstract
series-to-series function.
-/

/-- Model of an IEEE-double value as manipulated by numpy/pandas: a finite
rational, one of the two infinities, or NaN (which also encodes pandas
missing data). -/
inductive PFloat where
  | nan : PFloat
  | inf : PFloat
  | ninf : PFloat
  | fin : ℚ → PFloat
deriving DecidableEq

instance : Inhabited PFloat := ⟨PFloat.nan⟩

/-- Float addition: NaN propagates, `inf + ninf` is NaN. -/
def PFloat.add : PFloat → PFloat → PFloat
  | .nan, _ => .nan
  | _, .nan => .nan
  | .inf, .ninf => .nan
  | .ninf, .inf => .nan
  | .inf, _ => .inf
  | _, .inf => .inf
  | .ninf, _ => .ninf
  | _, .ninf => .ninf
  | .fin a, .fin b => .fin (a + b)

/-- Float negation. -/
def PFloat.neg : PFloat → PFloat
  | .nan => .nan
  | .inf => .ninf
  | .ninf => .inf
  | .fin a => .fin (-a)

/-- Float subtraction. -/
def PFloat.sub (a b : PFloat) : PFloat := a.add b.neg

/-- Float multiplication: NaN propagates, `0 * inf` is NaN. -/
def PFloat.mul : PFloat → PFloat → PFloat
  | .nan, _ => .nan
  | _, .nan => .nan
  | .inf, .inf => .inf
  | .inf, .ninf => .ninf
  | .ninf, .inf => .ninf
  | .ninf, .ninf => .inf
  | .inf, .fin b => if b = 0 then .nan else if 0 < b then .inf else .ninf
  | .fin a, .inf => if a = 0 then .nan else if 0 < a then .inf else .ninf
  | .ninf, .fin b => if b = 0 then .nan else if 0 < b then .ninf else .inf
  | .fin a, .ninf => if a = 0 then .nan else if 0 < a then .ninf else .inf
  | .fin a, .fin b => .fin (a * b)

/-- Float division: NaN propagates, `x / 0` is a signed infinity for `x ≠ 0`
and NaN for `x = 0`, `inf / inf` is NaN, finite over infinite is `0`.
(Rationals have a single zero, which we treat as IEEE `+0`.) -/
def PFloat.div : PFloat → PFloat → PFloat
  | .nan, _ => .nan
  | _, .nan => .nan
  | .inf, .inf => .nan
  | .inf, .ninf => .nan
  | .ninf, .inf => .nan
  | .ninf, .ninf => .nan
  | .inf, .fin b => if b < 0 then .ninf else .inf
  | .ninf, .fin b => if b < 0 then .inf else .ninf
  | .fin _, .inf => .fin 0
  | .fin _, .ninf => .fin 0
  | .fin a, .fin b =>
      if b = 0 then (if a = 0 then .nan else if 0 < a then .inf else .ninf)
      else .fin (a / b)

/-- Float absolute value (`np.abs`). -/
def PFloat.abs : PFloat → PFloat
  | .nan => .nan
  | .inf => .inf
  | .ninf => .inf
  | .fin a => .fin |a|

/-- Strict less-than as numpy computes it: any comparison with NaN is false. -/
def PFloat.lt : PFloat → PFloat → Bool
  | .nan, _ => false
  | _, .nan => false
  | .ninf, .ninf => false
  | .ninf, _ => true
  | _, .ninf => false
  | .inf, _ => false
  | .fin _, .inf => true
  | .fin a, .fin b => decide (a < b)

/-- Equality as numpy computes it: NaN is not equal to anything (itself
included), infinities are equal to themselves. -/
def PFloat.eqF : PFloat → PFloat → Bool
  | .nan, _ => false
  | _, .nan => false
  | .inf, .inf => true
  | .ninf, .ninf => true
  | .fin a, .fin b => decide (a = b)
  | _, _ => false

/-- True exactly on NaN (pandas missingness test). -/
def PFloat.isNan : PFloat → Bool
  | .nan => true
  | _ => false

/-- True exactly on finite values. -/
def PFloat.isFin : PFloat → Bool
  | .fin _ => true
  | _ => false

/-- The float is defined and `≥ 0` in the IEEE order (`inf` counts, NaN and
`ninf` do not). -/
def PFloat.isNonneg : PFloat → Bool
  | .inf => true
  | .fin a => decide (0 ≤ a)
  | _ => false

/-- The float is a finite value inside `[0, 1]`. -/
def PFloat.inUnitInterval : PFloat → Bool
  | .fin a => decide (0 ≤ a ∧ a ≤ 1)
  | _ => false

/-- Domination in the NaN-skipping maximum order: an `inf` entry forces the
maximum to be `inf`; a finite entry is bounded by the maximum; NaN and
`ninf` entries impose nothing. -/
def PFloat.domLe : PFloat → PFloat → Prop
  | .inf, m => m = .inf
  | .fin q, m => m = .inf ∨ ∃ r : ℚ, m = .fin r ∧ q ≤ r
  | _, _ => True

/-- Model of `np.sqrt` given a model `s` of exact square root on non-negative
rationals: NaN for negative or NaN arguments, `inf` for `inf`. -/
def sqrtF (s : ℚ → ℚ) : PFloat → PFloat
  | .nan => .nan
  | .inf => .inf
  | .ninf => .nan
  | .fin q => if q < 0 then .nan else .fin (s q)

/-- Value of a float series at a position; out-of-range reads give NaN. -/
def colAt (xs : List PFloat) (i : ℕ) : PFloat := xs.getD i PFloat.nan

/-- Mean of a pandas Series with the default `skipna=True`: NaN entries are
dropped, the mean of an empty selection is NaN. -/
def meanSkipna (xs : List PFloat) : PFloat :=
  let vs := xs.filter fun x => !x.isNan
  if vs.length = 0 then PFloat.nan
  else PFloat.div (vs.foldl PFloat.add (PFloat.fin 0)) (PFloat.fin vs.length)

/-- One step of a NaN-skipping maximum: ignore NaN, otherwise keep the
larger value in the IEEE order. -/
def maxStep (a x : PFloat) : PFloat :=
  if x.isNan then a else if a.isNan then x else if a.lt x then x else a

/-- Maximum of a pandas Series with the default `skipna=True`: NaN entries
are ignored, the maximum of an all-NaN series is NaN. -/
def colMax (xs : List PFloat) : PFloat :=
  xs.foldl maxStep PFloat.nan

/-- One step of a NaN-skipping minimum. -/
def minStep (a x : PFloat) : PFloat :=
  if x.isNan then a else if a.isNan then x else if x.lt a then x else a

/-- Minimum of a pandas Series with the default `skipna=True`. -/
def colMin (xs : List PFloat) : PFloat :=
  xs.foldl minStep PFloat.nan

/-- Row-wise mean (`DataFrame.mean(axis=1)`, `skipna=True`) of a list of
equal-length columns, producing a series of length `n`. -/
def rowMean (cols : List (List PFloat)) (n : ℕ) : List PFloat :=
  (List.range n).map fun i => meanSkipna (cols.map fun c => colAt c i)

/-- `Series.diff()`: first element NaN, element `i` is `x i - x (i-1)`. -/
def diffP (xs : List PFloat) : List PFloat :=
  (List.range xs.length).map fun i =>
    if i = 0 then PFloat.nan else PFloat.sub (colAt xs i) (colAt xs (i - 1))

/-- Label-interval restriction `lm.loc[t0:t1, col]` of a column against a
(monotone) time index: the entries whose index label lies in `[t0, t1]`,
both endpoints included. -/
def restrictIdx (timeIdx : List ℚ) (xs : List PFloat) (t0 t1 : ℚ) : List PFloat :=
  ((timeIdx.zip xs).filter fun p => decide (t0 ≤ p.1) && decide (p.1 ≤ t1)).map Prod.snd

/-- Label-interval restriction keeping the labels, used where the source
slices a Series and later consumes its index. -/
def restrictPairs (timeIdx : List ℚ) (xs : List PFloat) (t0 t1 : ℚ) : List (ℚ × PFloat) :=
  (timeIdx.zip xs).filter fun p => decide (t0 ≤ p.1) && decide (p.1 ≤ t1)

/-- Indices covered (inside `[0, n)`) by a pandas centered rolling window of
size `w` at position `i`: `[i - (w-1)/2, i + w/2]` in integer arithmetic. -/
def centeredWindow (w n i : ℕ) : List ℕ :=
  (List.range w).filterMap fun k =>
    let j : ℤ := (i : ℤ) + (k : ℤ) - (((w - 1) / 2 : ℕ) : ℤ)
    if 0 ≤ j ∧ j < (n : ℤ) then some j.toNat else none

/-- Median of a list of rationals: sort, take the middle element, or the
average of the two middle elements for an even length (0 for the empty
list, which never occurs at the call sites). -/
def medianQ (l : List ℚ) : ℚ :=
  let sorted := l.insertionSort (· ≤ ·)
  let k := l.length
  if k = 0 then 0
  else if k % 2 = 1 then sorted.getD (k / 2) 0
  else (sorted.getD (k / 2 - 1) 0 + sorted.getD (k / 2) 0) / 2

/-- The pandas chain `bs.rolling(window=w, center=True, min_periods=1)
.median().astype(bool)` on a boolean series: booleans are lifted to `0/1`
floats, each centered window (truncated at the series edges) is replaced by
its median, and the result is cast back with `≠ 0`. -/
def rollingMedianBool (w : ℕ) (bs : List Bool) : List Bool :=
  (List.range bs.length).map fun i =>
    let vals := (centeredWindow w bs.length i).map fun j => if bs.getD j false then (1 : ℚ) else 0
    decide (medianQ vals ≠ 0)

/-- Weighted dot product `Σ wts_k * vals_k` over PFloats. -/
def dotSum (wts : List ℚ) (vals : List PFloat) : PFloat :=
  ((wts.zip vals).map fun p => PFloat.mul (PFloat.fin p.1) p.2).foldl PFloat.add (PFloat.fin 0)

/-- The pandas chain `xs.rolling(w, center=True, win_type=...).mean()` with
weight vector `wts` (length `w`) supplied by `scipy.signal.get_window`:
centered window, default `min_periods = w`, so a window truncated at the
series edge or containing any NaN yields NaN; otherwise the weighted mean
`Σ w_k x_k / Σ w_k`. -/
def rollingWeightedMean (wts : List ℚ) (xs : List PFloat) : List PFloat :=
  let w := wts.length
  (List.range xs.length).map fun i =>
    if (w - 1) / 2 ≤ i ∧ i + w / 2 < xs.length then
      let vals := (List.range w).map fun k => colAt xs (i - (w - 1) / 2 + k)
      if vals.any PFloat.isNan then PFloat.nan
      else PFloat.div (dotSum wts vals) (PFloat.fin (wts.foldl (· + ·) 0))
    else PFloat.nan

/-!
Data model: one row of `<test_id>_plr_landmarks.csv` (a frame), one row of
`<test_id>_plr_protocol.csv` (an event), and the frame after time alignment.
Timestamps are modelled in milliseconds, so `(ts - onset).dt.total_seconds()
* 1000` is exactly `ts - onset`, and `(offset - onset) / np.timedelta64(1,
"ms")` is exactly `offset - onset`.  Landmark columns
`{eye}_lm_{k}_{x,y}` are modelled as a coordinate function from the eye name
and the landmark id. -/

/-- One row of the landmarks CSV. -/
structure Frame where
  timestamp : ℚ
  retcode : String
  coords : String → ℕ → PFloat × PFloat

instance : Inhabited Frame := ⟨{ timestamp := 0, retcode := "", coords := fun _ _ => default }⟩

/-- One row of the protocol CSV. -/
structure Event where
  time : ℚ
  event : String

/-- A frame after `load_plr_data`: reindexed by time from flash onset (ms)
and carrying the derived `is_flash_on` column. -/
structure AlignedFrame where
  time_from_flash_ms : ℚ
  timestamp : ℚ
  retcode : String
  is_flash_on : Bool
  coords : String → ℕ → PFloat × PFloat

instance : Inhabited AlignedFrame :=
  ⟨{ time_from_flash_ms := 0, timestamp := 0, retcode := "", is_flash_on := false,
     coords := fun _ _ => default }⟩

/-- The recording-scoped failure raised by `load_plr_data` when the protocol
lacks a stimulus event.  (In the Python source the raised class is the
builtin `IndexError`; the spec names this failure mode
`MissingStimulusEventError`, and this constructor carries that name for the
single error the loader can raise.) -/
inductive PlrError where
  | missingStimulusEvent : PlrError
deriving DecidableEq

/-- The first event of a given name in the protocol:
`pt.time[pt.event == name].values[0]`, `none` when no row matches. -/
def findEvent (pt : List Event) (name : String) : Option Event :=
  (pt.filter fun e => e.event == name).head?

/-- The `retcode`-driven invalidation performed by `load_plr_data`:
`lm.loc[lm["retcode"] != "OK", lm.columns.drop(["timestamp", "retcode"])]
= np.nan` sets every landmark coordinate of a non-`OK` row to NaN. -/
def invalidateCoords (f : Frame) : Frame :=
  if f.retcode = "OK" then f else { f with coords := fun _ _ => (PFloat.nan, PFloat.nan) }

/-- `load_plr_data` (plr.py): invalidate non-`OK` rows, locate the `FlashOn`
and `FlashOff` events (error when either is missing), add the
`is_flash_on` column (`onset ≤ timestamp ≤ offset`), reindex by
`timestamp - onset` in milliseconds, and also return the flash duration
`offset - onset` in milliseconds. -/
def load_plr_data (lm : List Frame) (pt : List Event) :
    Except PlrError (List AlignedFrame × ℚ) :=
  let lm2 := lm.map invalidateCoords
  match findEvent pt "FlashOn", findEvent pt "FlashOff" with
  | some onset, some offset =>
      .ok (lm2.map fun f =>
        { time_from_flash_ms := f.timestamp - onset.time
          timestamp := f.timestamp
          retcode := f.retcode
          is_flash_on := decide (onset.time ≤ f.timestamp) && decide (f.timestamp ≤ offset.time)
          coords := f.coords },
        offset.time - onset.time)
  | _, _ => .error PlrError.missingStimulusEvent

/-- Column lookup in a DataFrame modelled as a name-indexed list of columns. -/
def dfCol (df : List (String × List PFloat)) (name : String) : List PFloat :=
  (((df.find? fun p => p.1 == name).map Prod.snd).getD [])

/-- Euclidean pixel distance between two named landmarks of one frame:
`np.sqrt((x2 - x1) ** 2 + (y2 - y1) ** 2)`. -/
def lmDist (s : ℚ → ℚ) (f : AlignedFrame) (eye : String) (l1 l2 : ℕ) : PFloat :=
  sqrtF s (PFloat.add
    (PFloat.mul (PFloat.sub (f.coords eye l2).1 (f.coords eye l1).1)
      (PFloat.sub (f.coords eye l2).1 (f.coords eye l1).1))
    (PFloat.mul (PFloat.sub (f.coords eye l2).2 (f.coords eye l1).2)
      (PFloat.sub (f.coords eye l2).2 (f.coords eye l1).2)))

/-- `_calculate_landmark_distance` (plr.py): one pixel-distance column named
`{eye}_{name}_px` per configured landmark pair. -/
def calculate_landmark_distance (s : ℚ → ℚ) (lm : List AlignedFrame) (eye : String)
    (lm_pairs : List (ℕ × ℕ × String)) : List (String × List PFloat) :=
  lm_pairs.map fun t =>
    (eye ++ "_" ++ t.2.2 ++ "_px", lm.map fun f => lmDist s f eye t.1 t.2.1)

/-- The landmark-pair table of `calculate_pupil_size`: four pupil-diameter
estimates and the iris diameter. -/
def pupilLmPairs : List (ℕ × ℕ × String) :=
  [(7, 10, "horz_pupil_size"), (9, 23, "vert_pupil_size"), (22, 24, "diag1_pupil_size"),
   (25, 23, "diag2_pupil_size"), (6, 11, "iris_size")]

/-- `calculate_pupil_size` (plr.py): the five distance columns, the mean
`{eye}_pupil_size_px` of the columns whose name ends in `pupil_size_px`, and
the self-calibrated
`{eye}_pupil_size_mm = pupil_size_px / iris_size_px * nominal_iris_size_mm`. -/
def calculate_pupil_size (s : ℚ → ℚ) (lm : List AlignedFrame) (eye : String)
    (nominal_iris_size_mm : ℚ) : List (String × List PFloat) :=
  let ret := calculate_landmark_distance s lm eye pupilLmPairs
  let col_names := (ret.map Prod.fst).filter fun c => c.endsWith "pupil_size_px"
  let px := rowMean (col_names.map fun c => dfCol ret c) lm.length
  let iris := dfCol ret (eye ++ "_iris_size_px")
  let mm := (List.range lm.length).map fun i =>
    PFloat.mul (PFloat.div (colAt px i) (colAt iris i)) (PFloat.fin nominal_iris_size_mm)
  ret ++ [(eye ++ "_pupil_size_px", px), (eye ++ "_pupil_size_mm", mm)]

/-- The landmark-pair table of `calculate_eye_openness`: five eyelid-gap
estimates. -/
def opennessLmPairs : List (ℕ × ℕ × String) :=
  [(3, 19, "central_openness"), (4, 14, "inner_openness"), (17, 15, "far_inner_openness"),
   (2, 12, "outer_openness"), (26, 21, "far_outer_openness")]

/-- `calculate_eye_openness` (plr.py): the five eyelid-gap distance columns
and `{eye}_mean_eye_openness_nz = (ret / ret.max()).mean(axis=1)`, the
row-wise mean of each column divided by its own recording-wide maximum. -/
def calculate_eye_openness (s : ℚ → ℚ) (lm : List AlignedFrame) (eye : String) :
    List (String × List PFloat) :=
  let ret := calculate_landmark_distance s lm eye opennessLmPairs
  let ratios := ret.map fun nc => nc.2.map fun v => PFloat.div v (colMax nc.2)
  ret ++ [(eye ++ "_mean_eye_openness_nz", rowMean ratios lm.length)]

/-- Result DataFrame of `detect_blinks`: the `{eye}_speed` and
`{eye}_is_blink` columns. -/
structure BlinkResult where
  speed : List PFloat
  is_blink : List Bool

/-- `detect_blinks` (plr.py): speed is the absolute Savitzky-Golay first
derivative (`sg`, the scipy filter with the configured window and order) of
the openness index; the raw candidate is `speed > speed_th` OR
`openness < openness_th` (NaN compares false); the final mask is the
centered rolling median of the candidate over `blink_interval_window`
(`min_periods=1`) cast back to bool. -/
def detect_blinks (sg : List PFloat → List PFloat) (lm : List AlignedFrame) (eye : String)
    (eo : List (String × List PFloat)) (openness_th speed_th : ℚ)
    (blink_interval_window : ℕ) : BlinkResult :=
  let eoCol := dfCol eo (eye ++ "_mean_eye_openness_nz")
  let speed := (sg eoCol).map PFloat.abs
  let raw := (List.range lm.length).map fun i =>
    PFloat.lt (PFloat.fin speed_th) (colAt speed i)
      || PFloat.lt (colAt eoCol i) (PFloat.fin openness_th)
  { speed := speed, is_blink := rollingMedianBool blink_interval_window raw }

/-- The blink-mask application in `plr_pipeline.py`:
`lm.loc[blink[f"{eye}_is_blink"], [c for c in lm.columns if
c.startswith(eye)]] = np.nan` sets every landmark coordinate of the given
eye to NaN at masked frames. -/
def applyBlinkMask (mask : List Bool) (eye : String) (lm : List AlignedFrame) :
    List AlignedFrame :=
  (List.range lm.length).map fun i =>
    let f := lm.getD i default
    if mask.getD i false then
      { f with coords := fun e k => if e = eye then (PFloat.nan, PFloat.nan) else f.coords e k }
    else f

/-- The two scalar outputs of `calculate_signal_quality`. -/
structure SigQuality where
  raw_signal_quality : PFloat
  smooth_signal_quality : PFloat
deriving DecidableEq

/-- RMS of successive differences, `np.sqrt((s.diff() ** 2).mean())`. -/
def rms_s2s (s : ℚ → ℚ) (xs : List PFloat) : PFloat :=
  sqrtF s (meanSkipna ((diffP xs).map fun d => PFloat.mul d d))

/-- `calculate_signal_quality` (plr.py): RMS of successive differences of the
raw and smoothed pupil-size columns restricted to the stable label interval
`[t0, t1]`, averaged across the two eyes. -/
def calculate_signal_quality (s : ℚ → ℚ) (timeIdx : List ℚ)
    (df : List (String × List PFloat)) (t0 t1 : ℚ) : SigQuality :=
  let sq_raw := PFloat.div
    (PFloat.add (rms_s2s s (restrictIdx timeIdx (dfCol df "left_pupil_size_mm") t0 t1))
      (rms_s2s s (restrictIdx timeIdx (dfCol df "right_pupil_size_mm") t0 t1)))
    (PFloat.fin 2)
  let sq_smooth := PFloat.div
    (PFloat.add (rms_s2s s (restrictIdx timeIdx (dfCol df "left_smooth_pupil_size_mm") t0 t1))
      (rms_s2s s (restrictIdx timeIdx (dfCol df "right_smooth_pupil_size_mm") t0 t1)))
    (PFloat.fin 2)
  { raw_signal_quality := sq_raw, smooth_signal_quality := sq_smooth }

/-- The record returned by `calculate_biomarkers`. -/
structure Biomarkers where
  total_ctn_mm : PFloat
  ctn_latency_ms : ℚ
  ctn_velocity_mms : PFloat
  ctn_max_velocity_mms : PFloat
  ctn_max_time_ms : ℚ
deriving DecidableEq

/-- The constriction velocity series of `calculate_biomarkers`:
`savgol_filter(ps, ..., deriv=1) / ps.index.to_series().diff() * 1000`,
where `sg` stands for the scipy Savitzky-Golay filter with the configured
window and polynomial order and `deriv=1`. -/
def ctn_speed_mms (sg : List PFloat → List PFloat) (ps : List (ℚ × PFloat)) : List PFloat :=
  let labels := ps.map Prod.fst
  let sgv := sg (ps.map Prod.snd)
  (List.range ps.length).map fun i =>
    let dt := if i = 0 then PFloat.nan
      else PFloat.fin (labels.getD i 0 - labels.getD (i - 1) 0)
    PFloat.mul (PFloat.div (colAt sgv i) dt) (PFloat.fin 1000)

/-- `calculate_biomarkers` (plr.py) on a labelled series (the post-stimulus
smoothed pupil sizes, labels being `time_from_flash_ms`; labels are assumed
unique and increasing, as produced by the pipeline, so pandas label
operations coincide with positional ones):
`ctn_latency = (speed < th).idxmax()` (first True, or the first label when
no entry is True); `ctn_max = (ps == ps.min()).idxmax()`;
`total_ctn = ps[:ctn_latency].max() - ps.min()` (label slice, inclusive);
`ctn_velocity = total_ctn / (ctn_max - ctn_latency)`;
`ctn_max_velocity = -ctn_speed_mms[ctn_latency].min()`, a scalar label
lookup at the latency (`.min()` of a numpy scalar is the scalar itself).
`idxmax` on an empty series raises, hence `none` for an empty input. -/
def calculate_biomarkers (sg : List PFloat → List PFloat) (ps : List (ℚ × PFloat))
    (ctn_start_velocity_th_mms : ℚ) : Option Biomarkers :=
  if ps.length = 0 then none else
  let labels := ps.map Prod.fst
  let vals := ps.map Prod.snd
  let speed := ctn_speed_mms sg ps
  let latPos := (((List.range ps.length).find? fun i =>
    PFloat.lt (colAt speed i) (PFloat.fin ctn_start_velocity_th_mms))).getD 0
  let ctn_latency := labels.getD latPos 0
  let psmin := colMin vals
  let maxPos := (((List.range ps.length).find? fun i =>
    PFloat.eqF (colAt vals i) psmin)).getD 0
  let ctn_max := labels.getD maxPos 0
  let total_ctn := PFloat.sub (colMax (vals.take (latPos + 1))) psmin
  let ctn_velocity := PFloat.div total_ctn (PFloat.fin (ctn_max - ctn_latency))
  let ctn_max_velocity := PFloat.neg (colAt speed latPos)
  some { total_ctn_mm := total_ctn
         ctn_latency_ms := ctn_latency
         ctn_velocity_mms := ctn_velocity
         ctn_max_velocity_mms := ctn_max_velocity
         ctn_max_time_ms := ctn_max }

/-!
Driver model (`plr_pipeline.py` `__main__`): configuration, one recording,
and the per-recording processing with its stage-scoped exception handling
(`try/except ...: continue`).  Plotting and CSV output are excluded
collaborators.  The Savitzky-Golay filters of the blink and constriction
configs appear as the abstract series functions `sg_blink` / `sg_ctn`, and
`scipy.signal.get_window(smoothing_window_type, smoothing_window)` as the
explicit weight list `smoothing_weights`.
-/

/-- The recognized configuration options (config.json). -/
structure Config where
  nominal_iris_size_mm : ℚ
  dataloss_error : ℚ
  dataloss_warning : ℚ
  sg_blink : List PFloat → List PFloat
  openness_th : ℚ
  speed_th : ℚ
  blink_interval_window : ℕ
  smoothing_weights : List ℚ
  stable_interval_start : ℚ
  stable_interval_end : ℚ
  sg_ctn : List PFloat → List PFloat
  ctn_start_velocity_th_mms : ℚ

/-- One recording directory: its id and its two CSV files. -/
structure Recording where
  test_id : String
  landmarks : List Frame
  protocol : List Event

/-- The per-recording summary dict entry: `dataloss` is set right after
loading; the signal-quality scores are merged in (`summary[test_id]
.update(...)`) only if the noise-reduction stage is reached. -/
structure SummaryEntry where
  dataloss : ℚ
  signal_quality : Option SigQuality
deriving DecidableEq

/-- One eye-processing step of the blink-removal loop: compute the openness
index, detect blinks on it, and NaN-mask that eye's landmark columns. -/
def blinkRemovalStep (s : ℚ → ℚ) (cfg : Config) (cur : List AlignedFrame) (eye : String) :
    List AlignedFrame :=
  let eo := calculate_eye_openness s cur eye
  let blink := detect_blinks cfg.sg_blink cur eye eo cfg.openness_th cfg.speed_th
    cfg.blink_interval_window
  applyBlinkMask blink.is_blink eye cur

/-- Processing of one recording by the `plr_pipeline.py` main loop, returning
the summary entry (if any) and the biomarker records (keyed by eye) that the
recording contributes to the batch outputs:
load (a missing stimulus event aborts the recording); compute the data-loss
ratio `1 - ok_count / len(lm)` (a recording with no `OK` frame raises
`KeyError` at `value_counts()["OK"]` before the summary entry is written,
and is skipped); skip the rest if it exceeds the error threshold;
blink removal per eye; pupil size per eye; centered weighted smoothing;
signal quality over the stable interval; biomarkers per eye over the
post-stimulus window `[0, flash_duration]` (an empty window raises inside
`calculate_biomarkers` and aborts the remaining eyes of this recording
only). -/
def processRecording (s : ℚ → ℚ) (cfg : Config) (rec : Recording) :
    Option SummaryEntry × List (String × Biomarkers) :=
  match load_plr_data rec.landmarks rec.protocol with
  | .error _ => (none, [])
  | .ok (lm, flash_duration) =>
    let ok_count := (lm.filter fun f => f.retcode = "OK").length
    if ok_count = 0 then (none, [])
    else
      let dataloss : ℚ := 1 - (ok_count : ℚ) / (lm.length : ℚ)
      if cfg.dataloss_error < dataloss then
        (some { dataloss := dataloss, signal_quality := none }, [])
      else
        let lm2 := blinkRemovalStep s cfg (blinkRemovalStep s cfg lm "left") "right"
        let timeIdx := lm2.map AlignedFrame.time_from_flash_ms
        let leftMm := dfCol (calculate_pupil_size s lm2 "left" cfg.nominal_iris_size_mm)
          "left_pupil_size_mm"
        let rightMm := dfCol (calculate_pupil_size s lm2 "right" cfg.nominal_iris_size_mm)
          "right_pupil_size_mm"
        let leftSm := rollingWeightedMean cfg.smoothing_weights leftMm
        let rightSm := rollingWeightedMean cfg.smoothing_weights rightMm
        let df := [("left_pupil_size_mm", leftMm), ("right_pupil_size_mm", rightMm),
                   ("left_smooth_pupil_size_mm", leftSm), ("right_smooth_pupil_size_mm", rightSm)]
        let sq := calculate_signal_quality s timeIdx df cfg.stable_interval_start
          cfg.stable_interval_end
        let summaryEntry := some { dataloss := dataloss, signal_quality := some sq }
        match calculate_biomarkers cfg.sg_ctn (restrictPairs timeIdx leftSm 0 flash_duration)
            cfg.ctn_start_velocity_th_mms with
        | none => (summaryEntry, [])
        | some bl =>
          match calculate_biomarkers cfg.sg_ctn (restrictPairs timeIdx rightSm 0 flash_duration)
              cfg.ctn_start_velocity_th_mms with
          | none => (summaryEntry, [("left", bl)])
          | some br => (summaryEntry, [("left", bl), ("right", br)])

/-- The whole batch loop: per-recording summaries and biomarker rows, in
directory order; a recording that fails or is skipped contributes nothing
and the loop continues with the next recording. -/
def processBatch (s : ℚ → ℚ) (cfg : Config) : List Recording →
    List (String × SummaryEntry) × List ((String × String) × Biomarkers)
  | [] => ([], [])
  | r :: rest =>
    let out := processRecording s cfg r
    let batch := processBatch s cfg rest
    ((out.1.map fun e => (r.test_id, e)).toList ++ batch.1,
     (out.2.map fun eb => ((r.test_id, eb.1), eb.2)) ++ batch.2)

/-!
Spec-side predicates, written from the claims' words, used to state the
theorems independently of the source translation above.
-/

/-- The raw blink candidate of the spec: absolute Savitzky-Golay derivative
speed above the speed threshold, or openness index below the openness
threshold (NaN comparing false, as in numpy). -/
def specRawBlinkCandidate (sg : List PFloat → List PFloat) (eoCol : List PFloat)
    (openness_th speed_th : ℚ) (i : ℕ) : Bool :=
  PFloat.lt (PFloat.fin speed_th) (colAt ((sg eoCol).map PFloat.abs) i)
    || PFloat.lt (colAt eoCol i) (PFloat.fin openness_th)

/-- A series has at least one pair of consecutive finite entries. -/
def hasFinStep (xs : List PFloat) : Bool :=
  (List.range xs.length).any fun i =>
    decide (i + 1 < xs.length) && (colAt xs i).isFin && (colAt xs (i + 1)).isFin

/-- A series is perfectly constant: nonempty, first entry finite, every
entry equal to the first. -/
def constFin (xs : List PFloat) : Bool :=
  match xs with
  | [] => false
  | x :: t => x.isFin && t.all fun y => decide (y = x)

/-! Concrete fixture data used by the witness theorems. -/

/-- A valid frame stamped exactly at the flash onset. -/
def c5Frame : Frame :=
  { timestamp := 100, retcode := "OK", coords := fun _ _ => (.fin 0, .fin 0) }

/-- A protocol with onset at 100 ms and offset at 350 ms. -/
def c5Protocol : List Event :=
  [{ time := 100, event := "FlashOn" }, { time := 350, event := "FlashOff" }]

/-- The aligned series `load_plr_data` produces for `c5Frame`/`c5Protocol`. -/
def c5Aligned : List AlignedFrame :=
  [{ time_from_flash_ms := 0, timestamp := 100, retcode := "OK", is_flash_on := true,
     coords := fun _ _ => (.fin 0, .fin 0) }]

/-- A fixed model of the constriction Savitzky-Golay derivative output on the
four-sample fixture series: derivative values `[0, -1/500, -1/200, -1/1000]`
(so, after scaling by the 1 ms sample interval and the factor 1000, the
velocity series is `[NaN, -2, -5, -1]` mm/s). -/
def ctnFixSg : List PFloat → List PFloat :=
  fun _ => [.fin 0, .fin (-1/500), .fin (-1/200), .fin (-1/1000)]

/-- A four-sample post-stimulus pupil series at 0,1,2,3 ms. -/
def ctnFixPs : List (ℚ × PFloat) :=
  [(0, .fin 5), (1, .fin 4), (2, .fin 3), (3, .fin 3)]

/-- A frame whose pupil landmark pairs are 1 px apart while the two iris
landmarks (6 and 11) coincide, so the iris diameter is 0 px. -/
def c4Frame : AlignedFrame :=
  { time_from_flash_ms := 0, timestamp := 0, retcode := "OK", is_flash_on := true,
    coords := fun _ k =>
      if k = 10 ∨ k = 23 ∨ k = 24 then (.fin 1, .fin 0) else (.fin 0, .fin 0) }

/-- A minimal configuration; the Savitzky-Golay filters are modelled by the
constant-empty series function (their output only feeds positions that are
read back with a NaN default). -/
def trivialConfig : Config :=
  { nominal_iris_size_mm := 117/10
    dataloss_error := 1/4
    dataloss_warning := 1/10
    sg_blink := fun _ => []
    openness_th := 1/2
    speed_th := 1/100
    blink_interval_window := 1
    smoothing_weights := [1]
    stable_interval_start := -1000
    stable_interval_end := 0
    sg_ctn := fun _ => []
    ctn_start_velocity_th_mms := -1 }

/-- A recording whose protocol has a FlashOff event but no FlashOn event. -/
def c6BadRecording : Recording :=
  { test_id := "bad", landmarks := [c5Frame], protocol := [{ time := 350, event := "FlashOff" }] }

/-- A well-formed recording. -/
def c6GoodRecording : Recording :=
  { test_id := "good", landmarks := [c5Frame], protocol := c5Protocol }

/-- Ten frames at 0..9 ms, the first three with a failing retcode. -/
def c9Frames : List Frame :=
  (List.range 10).map fun i =>
    { timestamp := (i : ℚ), retcode := if i < 3 then "FAIL" else "OK",
      coords := fun _ _ => (.fin 0, .fin 0) }

/-- The aligned series `load_plr_data` produces for `c9Frames` with onset 0
and offset 9. -/
def c9Aligned : List AlignedFrame :=
  (List.range 10).map fun i =>
    { time_from_flash_ms := (i : ℚ) - 0
      timestamp := (i : ℚ)
      retcode := if i < 3 then "FAIL" else "OK"
      is_flash_on := decide ((0 : ℚ) ≤ (i : ℚ)) && decide ((i : ℚ) ≤ (9 : ℚ))
      coords := if i < 3 then fun _ _ => (.nan, .nan) else fun _ _ => (.fin 0, .fin 0) }

/-- The ten-frame recording with 3 invalid frames (data loss 0.3). -/
def c9Recording : Recording :=
  { test_id := "c9", landmarks := c9Frames,
    protocol := [{ time := 0, event := "FlashOn" }, { time := 9, event := "FlashOff" }] }

/-!
Named forms of the derived columns, used to state and prove the invariance
claims; each is definitionally equal to the corresponding column of the
DataFrame built by the source function (established by the `_df_` lemmas
below).
-/

/-- One eyelid-gap column divided by its own recording-wide maximum. -/
def opennessRatioCol (s : ℚ → ℚ) (lm : List AlignedFrame) (eye : String) (l1 l2 : ℕ) :
    List PFloat :=
  (lm.map fun f => lmDist s f eye l1 l2).map fun v =>
    PFloat.div v (colMax (lm.map fun f => lmDist s f eye l1 l2))

/-- The `{eye}_mean_eye_openness_nz` column: row-wise mean of the five
self-normalized eyelid-gap ratios. -/
def opennessCol (s : ℚ → ℚ) (lm : List AlignedFrame) (eye : String) : List PFloat :=
  rowMean [opennessRatioCol s lm eye 3 19, opennessRatioCol s lm eye 4 14,
    opennessRatioCol s lm eye 17 15, opennessRatioCol s lm eye 2 12,
    opennessRatioCol s lm eye 26 21] lm.length

/-- The aligned series after the two blink-removal mask applications of the
pipeline (left eye first, then right), for arbitrary masks. -/
def pipelineMaskedFrames (mL mR : List Bool) (alm : List AlignedFrame) : List AlignedFrame :=
  applyBlinkMask mR "right" (applyBlinkMask mL "left" alm)

/-- An invalid frame (failing retcode). -/
def c1BadFrame : Frame :=
  { timestamp := 100, retcode := "TRACKING_LOST", coords := fun _ _ => (.fin 3, .fin 4) }

/-- The aligned series `load_plr_data` produces for `[c1BadFrame]` with
`c5Protocol`: the landmark coordinates have been invalidated. -/
def c1Aligned : List AlignedFrame :=
  [{ time_from_flash_ms := 0, timestamp := 100, retcode := "TRACKING_LOST",
     is_flash_on := true, coords := fun _ _ => (.nan, .nan) }]

/-- A degenerate signal-quality input: a single frame at time 0 with all
four pupil-size columns defined and constant. -/
def c8DegDf : List (String × List PFloat) :=
  [("left_pupil_size_mm", [.fin 1]), ("right_pupil_size_mm", [.fin 1]),
   ("left_smooth_pupil_size_mm", [.fin 1]), ("right_smooth_pupil_size_mm", [.fin 1])]

/-- A two-frame signal-quality input with all four pupil-size columns
defined and constant. -/
def c8ConstDf : List (String × List PFloat) :=
  [("left_pupil_size_mm", [.fin 2, .fin 2]), ("right_pupil_size_mm", [.fin 2, .fin 2]),
   ("left_smooth_pupil_size_mm", [.fin 2, .fin 2]),
   ("right_smooth_pupil_size_mm", [.fin 2, .fin 2])]

/-- A one-frame aligned series whose landmark `k` sits at `(k, 0)`, so all
eyelid-gap distances are positive. -/
def c10Aligned : List AlignedFrame :=
  [{ time_from_flash_ms := 0, timestamp := 0, retcode := "OK", is_flash_on := false,
     coords := fun _ k => (.fin (k : ℚ), .fin 0) }]

/-! General helper lemmas. -/

theorem getD_map_range {α : Type _} (f : ℕ → α) (d : α) {n i : ℕ} (hi : i < n) :
    ((List.range n).map f).getD i d = f i := by
  rw [List.getD_eq_getElem?_getD, List.getElem?_map, List.getElem?_range hi]
  rfl

theorem getD_map_of_lt {α β : Type _} (f : α → β) (l : List α) (d : β) (d0 : α) {i : ℕ}
    (hi : i < l.length) : (l.map f).getD i d = f (l.getD i d0) := by
  rw [List.getD_eq_getElem?_getD, List.getElem?_map, List.getElem?_eq_getElem hi,
    List.getD_eq_getElem?_getD, List.getElem?_eq_getElem hi]
  rfl

theorem find?_range'_first (p : ℕ → Bool) (a k i0 : ℕ) (ha : a ≤ i0) (hik : i0 < a + k)
    (hp : p i0 = true) (hmin : ∀ j, a ≤ j → j < i0 → p j = false) :
    (List.range' a k).find? p = some i0 := by
  induction k generalizing a with
  | zero => omega
  | succ k ih =>
    rw [List.range'_succ]
    rcases Nat.eq_or_lt_of_le ha with rfl | hlt
    · rw [List.find?_cons_of_pos _ hp]
    · rw [List.find?_cons_of_neg _ (by rw [hmin a le_rfl hlt]; exact Bool.false_ne_true)]
      exact ih (a + 1) hlt (by omega) fun j hj hji => hmin j (by omega) hji

theorem find?_range_first (p : ℕ → Bool) (n i0 : ℕ) (hik : i0 < n)
    (hp : p i0 = true) (hmin : ∀ j, j < i0 → p j = false) :
    (List.range n).find? p = some i0 := by
  rw [List.range_eq_range']
  exact find?_range'_first p 0 n i0 (Nat.zero_le _) (by omega) hp fun j _ hj => hmin j hj

/-! NaN-propagation and sign lemmas for the float model. -/

theorem PFloat.nan_add (x : PFloat) : PFloat.add .nan x = .nan := by cases x <;> rfl

theorem PFloat.add_nan (x : PFloat) : PFloat.add x .nan = .nan := by cases x <;> rfl

theorem PFloat.nan_sub (x : PFloat) : PFloat.sub .nan x = .nan := by
  cases x <;> rfl

theorem PFloat.sub_nan (x : PFloat) : PFloat.sub x .nan = .nan := by
  cases x <;> rfl

theorem PFloat.nan_mul (x : PFloat) : PFloat.mul .nan x = .nan := by cases x <;> rfl

theorem PFloat.mul_nan (x : PFloat) : PFloat.mul x .nan = .nan := by cases x <;> rfl

theorem PFloat.nan_div (x : PFloat) : PFloat.div .nan x = .nan := by cases x <;> rfl

theorem PFloat.div_nan (x : PFloat) : PFloat.div x .nan = .nan := by cases x <;> rfl

theorem sqrtF_nan (s : ℚ → ℚ) : sqrtF s .nan = .nan := rfl

/-- Squares in the float model are NaN, `inf`, or finite non-negative. -/
theorem PFloat.sq_cases (d : PFloat) :
    PFloat.mul d d = .nan ∨ PFloat.mul d d = .inf ∨
      ∃ q : ℚ, PFloat.mul d d = .fin q ∧ 0 ≤ q := by
  cases d with
  | nan => exact Or.inl rfl
  | inf => exact Or.inr (Or.inl rfl)
  | ninf => exact Or.inr (Or.inl rfl)
  | fin a => exact Or.inr (Or.inr ⟨a * a, rfl, mul_self_nonneg a⟩)

/-- Sums of NaN/`inf`/finite-non-negative floats stay in that class. -/
theorem PFloat.add_nonneg_cases {x y : PFloat}
    (hx : x = .nan ∨ x = .inf ∨ ∃ q : ℚ, x = .fin q ∧ 0 ≤ q)
    (hy : y = .nan ∨ y = .inf ∨ ∃ q : ℚ, y = .fin q ∧ 0 ≤ q) :
    PFloat.add x y = .nan ∨ PFloat.add x y = .inf ∨
      ∃ q : ℚ, PFloat.add x y = .fin q ∧ 0 ≤ q := by
  rcases hx with rfl | rfl | ⟨a, rfl, ha⟩ <;> rcases hy with rfl | rfl | ⟨b, rfl, hb⟩
  · exact Or.inl rfl
  · exact Or.inl rfl
  · exact Or.inl (PFloat.nan_add _)
  · exact Or.inl rfl
  · exact Or.inr (Or.inl rfl)
  · exact Or.inr (Or.inl rfl)
  · exact Or.inl (PFloat.add_nan _)
  · exact Or.inr (Or.inl rfl)
  · exact Or.inr (Or.inr ⟨a + b, rfl, add_nonneg ha hb⟩)

/-- The sum-of-squares inside a landmark distance is NaN, `inf`, or finite
non-negative, hence so is the distance itself for any square-root model
that is non-negative on non-negative arguments. -/
theorem lmDist_cases (s : ℚ → ℚ) (hs : ∀ q, 0 ≤ q → 0 ≤ s q) (f : AlignedFrame)
    (eye : String) (l1 l2 : ℕ) :
    lmDist s f eye l1 l2 = .nan ∨ lmDist s f eye l1 l2 = .inf ∨
      ∃ q : ℚ, lmDist s f eye l1 l2 = .fin q ∧ 0 ≤ q := by
  have h := PFloat.add_nonneg_cases
    (PFloat.sq_cases (PFloat.sub (f.coords eye l2).1 (f.coords eye l1).1))
    (PFloat.sq_cases (PFloat.sub (f.coords eye l2).2 (f.coords eye l1).2))
  unfold lmDist
  rcases h with h | h | ⟨q, h, hq⟩ <;> rw [h]
  · exact Or.inl rfl
  · exact Or.inr (Or.inl rfl)
  · simp only [sqrtF, if_neg (not_lt.mpr hq)]
    exact Or.inr (Or.inr ⟨s q, rfl, hs q hq⟩)

/-! Facts about `load_plr_data` and the aligned series. -/

theorem invalidateCoords_timestamp (f : Frame) :
    (invalidateCoords f).timestamp = f.timestamp := by
  unfold invalidateCoords; split <;> rfl

theorem invalidateCoords_retcode (f : Frame) :
    (invalidateCoords f).retcode = f.retcode := by
  unfold invalidateCoords; split <;> rfl

theorem invalidateCoords_coords_of_bad (f : Frame) (h : f.retcode ≠ "OK") :
    (invalidateCoords f).coords = fun _ _ => (PFloat.nan, PFloat.nan) := by
  unfold invalidateCoords
  rw [if_neg h]

theorem load_plr_data_ok (lmRaw : List Frame) (pt : List Event) (onset offset : Event)
    (hOn : findEvent pt "FlashOn" = some onset) (hOff : findEvent pt "FlashOff" = some offset) :
    load_plr_data lmRaw pt = .ok
      ((lmRaw.map invalidateCoords).map fun f =>
        { time_from_flash_ms := f.timestamp - onset.time
          timestamp := f.timestamp
          retcode := f.retcode
          is_flash_on := decide (onset.time ≤ f.timestamp) && decide (f.timestamp ≤ offset.time)
          coords := f.coords },
        offset.time - onset.time) := by
  unfold load_plr_data
  rw [hOn, hOff]

/-- Claim C5: time alignment gives every frame the elapsed-time index
`timestamp - onset` (milliseconds); a frame stamped at the onset gets index
0, a frame stamped at the offset gets index equal to the returned flash
duration, and `is_flash_on` is true exactly for timestamps inside
`[onset, offset]`, both endpoints included. -/
theorem c5_time_alignment (lmRaw : List Frame) (pt : List Event) (onset offset : Event)
    (alm : List AlignedFrame) (dur : ℚ) (i : ℕ)
    (hOn : findEvent pt "FlashOn" = some onset)
    (hOff : findEvent pt "FlashOff" = some offset)
    (hload : load_plr_data lmRaw pt = .ok (alm, dur))
    (hi : i < lmRaw.length) :
    (alm.getD i default).time_from_flash_ms = (lmRaw.getD i default).timestamp - onset.time
    ∧ ((lmRaw.getD i default).timestamp = onset.time →
        (alm.getD i default).time_from_flash_ms = 0)
    ∧ ((lmRaw.getD i default).timestamp = offset.time →
        (alm.getD i default).time_from_flash_ms = dur)
    ∧ (alm.getD i default).is_flash_on =
        (decide (onset.time ≤ (lmRaw.getD i default).timestamp)
          && decide ((lmRaw.getD i default).timestamp ≤ offset.time)) := by
  have h2 := hload
  rw [load_plr_data_ok lmRaw pt onset offset hOn hOff] at h2
  simp only [Except.ok.injEq, Prod.mk.injEq] at h2
  obtain ⟨halm, hdur⟩ := h2
  subst halm hdur
  have hlen : i < (lmRaw.map invalidateCoords).length := by simpa using hi
  rw [getD_map_of_lt _ _ default default hlen, getD_map_of_lt _ _ default default hi]
  refine ⟨?_, ?_, ?_, ?_⟩
  · show (invalidateCoords _).timestamp - onset.time = _
    rw [invalidateCoords_timestamp]
  · intro h
    show (invalidateCoords _).timestamp - onset.time = 0
    rw [invalidateCoords_timestamp, h, sub_self]
  · intro h
    show (invalidateCoords _).timestamp - onset.time = offset.time - onset.time
    rw [invalidateCoords_timestamp, h]
  · show (decide (onset.time ≤ (invalidateCoords (lmRaw.getD i default)).timestamp)
        && decide ((invalidateCoords (lmRaw.getD i default)).timestamp ≤ offset.time))
      = (decide (onset.time ≤ (lmRaw.getD i default).timestamp)
        && decide ((lmRaw.getD i default).timestamp ≤ offset.time))
    rw [invalidateCoords_timestamp]

/-- Witness for C5 at a concrete recording: one valid frame stamped at the
onset, protocol with onset 100 ms and offset 350 ms, flash duration 250. -/
theorem c5_time_alignment_witness :
    (c5Aligned.getD 0 default).time_from_flash_ms
        = (([c5Frame] : List Frame).getD 0 default).timestamp - (100 : ℚ)
    ∧ ((([c5Frame] : List Frame).getD 0 default).timestamp = (100 : ℚ) →
        (c5Aligned.getD 0 default).time_from_flash_ms = 0)
    ∧ ((([c5Frame] : List Frame).getD 0 default).timestamp = (350 : ℚ) →
        (c5Aligned.getD 0 default).time_from_flash_ms = 250)
    ∧ (c5Aligned.getD 0 default).is_flash_on =
        (decide ((100 : ℚ) ≤ (([c5Frame] : List Frame).getD 0 default).timestamp)
          && decide ((([c5Frame] : List Frame).getD 0 default).timestamp ≤ (350 : ℚ))) := by
  exact c5_time_alignment [c5Frame] c5Protocol { time := 100, event := "FlashOn" }
    { time := 350, event := "FlashOff" } c5Aligned 250 0 (by rfl) (by rfl)
    (by simp [load_plr_data, findEvent, c5Protocol, c5Frame, c5Aligned, invalidateCoords]
        norm_num)
    (by decide)

/-- Claim C7: the final blink mask of `detect_blinks` is, frame for frame,
the centered rolling median (window `blink_interval_window`, `min_periods=1`)
of the raw candidate boolean — absolute Savitzky-Golay speed of the openness
index above `speed_th`, or openness index below `openness_th` — cast back to
boolean. -/
theorem c7_blink_mask_is_rolling_median (sg : List PFloat → List PFloat)
    (lm : List AlignedFrame) (eye : String) (eo : List (String × List PFloat))
    (openness_th speed_th : ℚ) (blink_interval_window : ℕ) :
    (detect_blinks sg lm eye eo openness_th speed_th blink_interval_window).is_blink
      = rollingMedianBool blink_interval_window
          ((List.range lm.length).map
            (specRawBlinkCandidate sg (dfCol eo (eye ++ "_mean_eye_openness_nz"))
              openness_th speed_th)) := by
  rfl

/-- Claim C3: when some sample of the velocity series is below the
threshold, the returned latency is the label of the earliest such sample
(first crossing scanning forward), not the position of the global velocity
minimum. -/
theorem c3_latency_first_crossing (sg : List PFloat → List PFloat) (ps : List (ℚ × PFloat))
    (th : ℚ) (i0 : ℕ) (hi0 : i0 < ps.length)
    (hp : PFloat.lt (colAt (ctn_speed_mms sg ps) i0) (PFloat.fin th) = true)
    (hmin : ∀ j, j < i0 → PFloat.lt (colAt (ctn_speed_mms sg ps) j) (PFloat.fin th) = false) :
    (calculate_biomarkers sg ps th).map Biomarkers.ctn_latency_ms
      = some ((ps.map Prod.fst).getD i0 0) := by
  have hne : ¬ ps.length = 0 := by omega
  have hfind : ((List.range ps.length).find? fun i =>
      PFloat.lt (colAt (ctn_speed_mms sg ps) i) (PFloat.fin th)) = some i0 :=
    find?_range_first _ _ _ hi0 hp hmin
  unfold calculate_biomarkers
  rw [if_neg hne]
  simp only [hfind, Option.getD_some]
  rfl

/-- Witness for C3 on the fixture series: velocities `[NaN, -2, -5, -1]`
mm/s with threshold -1 cross first at 1 ms, even though the minimum is at
2 ms. -/
theorem c3_latency_first_crossing_witness :
    (calculate_biomarkers ctnFixSg ctnFixPs (-1)).map Biomarkers.ctn_latency_ms
      = some ((ctnFixPs.map Prod.fst).getD 1 0) := by
  refine c3_latency_first_crossing ctnFixSg ctnFixPs (-1) 1 (by decide) (by with_unfolding_all decide) ?_
  intro j hj
  interval_cases j
  with_unfolding_all decide

/-- Claim C2, code behaviour at a concrete input: the source computes
`ctn_max_velocity = -ctn_speed_mms[ctn_latency].min()`, a scalar lookup at
the latency label (the `.min()` of a numpy scalar is the scalar itself), so
on the fixture series (velocities `[NaN, -2, -5, -1]` mm/s, threshold -1) it
returns 2 mm/s, whereas the magnitude of the most negative velocity
anywhere in the window is 5 mm/s.  The claimed equality fails; the `.min()`
applied to a scalar indicates a missing `[ctn_latency:]` slice. -/
theorem c2_peak_velocity_code_behaviour :
    (calculate_biomarkers ctnFixSg ctnFixPs (-1)).map Biomarkers.ctn_max_velocity_mms
        = some (PFloat.fin 2)
    ∧ colMax ((ctn_speed_mms ctnFixSg ctnFixPs).map PFloat.neg) = PFloat.fin 5
    ∧ some (PFloat.fin 2) ≠ some (PFloat.fin 5) := by
  refine ⟨by with_unfolding_all decide, by with_unfolding_all decide, by decide⟩

/-- Claim C4, code behaviour at a concrete input: with every pupil
landmark pair 1 px apart and the two iris landmarks coinciding (iris
diameter 0 px), the unguarded division in `calculate_pupil_size` yields
`pupil_size_mm = +inf` at that frame — not a missing value as the claim
requires.  (The square-root model is `id`, which agrees with `np.sqrt` at
the two arguments used, 0 and 1.) -/
theorem c4_division_by_zero_unguarded :
    colAt (dfCol (calculate_pupil_size id [c4Frame] "left" (117/10)) "left_pupil_size_mm") 0
        = PFloat.inf
    ∧ PFloat.inf.isNan = false := by
  exact ⟨by with_unfolding_all decide, rfl⟩

/-- A recording that contributes nothing is skipped by the batch loop. -/
theorem processBatch_cons_skip (s : ℚ → ℚ) (cfg : Config) (rec : Recording)
    (rest : List Recording) (hrec : processRecording s cfg rec = (none, [])) :
    processBatch s cfg (rec :: rest) = processBatch s cfg rest := by
  simp [processBatch, hrec]

/-- Claim C6: when the protocol has no FlashOn or no FlashOff event,
loading fails with the missing-stimulus-event error (the `IndexError` the
source raises, named `MissingStimulusEventError` by the spec) instead of
returning a result, the recording contributes no summary entry and no
biomarkers, and the batch loop skips it and processes the remaining
recordings unchanged. -/
theorem c6_missing_stimulus_event (s : ℚ → ℚ) (cfg : Config) (rec : Recording)
    (pre post : List Recording)
    (h : findEvent rec.protocol "FlashOn" = none ∨ findEvent rec.protocol "FlashOff" = none) :
    load_plr_data rec.landmarks rec.protocol = .error PlrError.missingStimulusEvent
    ∧ processRecording s cfg rec = (none, [])
    ∧ processBatch s cfg (pre ++ rec :: post) = processBatch s cfg (pre ++ post) := by
  have hload : load_plr_data rec.landmarks rec.protocol = .error PlrError.missingStimulusEvent := by
    unfold load_plr_data
    rcases hOn : findEvent rec.protocol "FlashOn" with _ | e1 <;>
      rcases hOff : findEvent rec.protocol "FlashOff" with _ | e2 <;>
      try rfl
    rcases h with h | h
    · rw [hOn] at h
      exact Option.noConfusion h
    · rw [hOff] at h
      exact Option.noConfusion h
  have hrec : processRecording s cfg rec = (none, []) := by
    unfold processRecording
    rw [hload]
  refine ⟨hload, hrec, ?_⟩
  induction pre with
  | nil => simpa using processBatch_cons_skip s cfg rec post hrec
  | cons r t ih =>
    simp only [List.cons_append, processBatch, List.append_eq]
    rw [ih]

/-- Witness for C6: a recording with no FlashOn event errors out and the
batch of `[bad, good]` equals the batch of `[good]`. -/
theorem c6_missing_stimulus_event_witness :
    load_plr_data c6BadRecording.landmarks c6BadRecording.protocol
        = .error PlrError.missingStimulusEvent
    ∧ processRecording id trivialConfig c6BadRecording = (none, [])
    ∧ processBatch id trivialConfig ([] ++ c6BadRecording :: [c6GoodRecording])
        = processBatch id trivialConfig ([] ++ [c6GoodRecording]) := by
  exact c6_missing_stimulus_event id trivialConfig c6BadRecording [] [c6GoodRecording]
    (Or.inl (by rfl))

/-- Claim C9: the data-loss ratio `1 - ok_count / len` equals
(count of non-`OK` frames) / (total frames), and when it exceeds the
configured error threshold the recording is skipped right after loading:
its summary entry holds only the data-loss ratio (no signal-quality
scores) and no biomarker records are produced. -/
theorem c9_dataloss_gate (s : ℚ → ℚ) (cfg : Config) (rec : Recording)
    (lm : List AlignedFrame) (flash_duration : ℚ)
    (hload : load_plr_data rec.landmarks rec.protocol = .ok (lm, flash_duration))
    (hok : 0 < (lm.filter fun f => f.retcode = "OK").length) :
    (1 - ((lm.filter fun f => f.retcode = "OK").length : ℚ) / (lm.length : ℚ)
        = ((lm.filter fun f => f.retcode ≠ "OK").length : ℚ) / (lm.length : ℚ))
    ∧ (cfg.dataloss_error <
          1 - ((lm.filter fun f => f.retcode = "OK").length : ℚ) / (lm.length : ℚ) →
        processRecording s cfg rec
          = (some { dataloss := 1 - ((lm.filter fun f => f.retcode = "OK").length : ℚ)
                      / (lm.length : ℚ), signal_quality := none }, [])) := by
  have hsplit := List.length_eq_length_filter_add (l := lm) fun f => decide (f.retcode = "OK")
  have hcompl : (lm.filter fun f => f.retcode ≠ "OK")
      = lm.filter fun f => !(decide (f.retcode = "OK")) := by
    simp only [ne_eq, decide_not]
  have hn : (0 : ℚ) < (lm.length : ℚ) := by
    have : 0 < lm.length := by
      calc 0 < (lm.filter fun f => f.retcode = "OK").length := hok
        _ ≤ lm.length := List.length_filter_le _ _
    exact_mod_cast this
  constructor
  · rw [hcompl, eq_div_iff (ne_of_gt hn), sub_mul, one_mul,
      div_mul_cancel₀ _ (ne_of_gt hn)]
    have hq : (lm.length : ℚ) = ((lm.filter fun f => decide (f.retcode = "OK")).length : ℚ)
        + ((lm.filter fun x => !decide (x.retcode = "OK")).length : ℚ) := by
      exact_mod_cast hsplit
    linarith
  · intro hgate
    unfold processRecording
    rw [hload]
    simp only
    rw [if_neg (by omega), if_pos hgate]

/-- Witness for C9 on the ten-frame fixture recording with 3 invalid
frames: ratio 3/10 exceeds the error threshold 1/4, so the recording is
skipped with a dataloss-only summary and no biomarkers. -/
theorem c9_dataloss_gate_witness :
    (1 - ((c9Aligned.filter fun f => f.retcode = "OK").length : ℚ) / (c9Aligned.length : ℚ)
        = ((c9Aligned.filter fun f => f.retcode ≠ "OK").length : ℚ) / (c9Aligned.length : ℚ))
    ∧ processRecording id trivialConfig c9Recording
        = (some { dataloss := 1 - ((c9Aligned.filter fun f => f.retcode = "OK").length : ℚ)
            / (c9Aligned.length : ℚ), signal_quality := none }, []) := by
  have h := c9_dataloss_gate id trivialConfig c9Recording c9Aligned 9
    (by with_unfolding_all rfl) (by decide)
  exact ⟨h.1, h.2 (by with_unfolding_all decide)⟩

/-! Length and coordinate-invalidation lemmas for the masked series. -/

theorem applyBlinkMask_length (mask : List Bool) (eye : String) (lm : List AlignedFrame) :
    (applyBlinkMask mask eye lm).length = lm.length := by
  simp [applyBlinkMask]

theorem applyBlinkMask_coords_nan (mask : List Bool) (eye : String) (lm : List AlignedFrame)
    (i : ℕ) (hi : i < lm.length)
    (h : ∀ e k, (lm.getD i default).coords e k = (PFloat.nan, PFloat.nan)) :
    ∀ e k, ((applyBlinkMask mask eye lm).getD i default).coords e k
      = (PFloat.nan, PFloat.nan) := by
  intro e k
  unfold applyBlinkMask
  rw [getD_map_range _ _ hi]
  split
  · show (if e = eye then (PFloat.nan, PFloat.nan) else (lm.getD i default).coords e k) = _
    by_cases he : e = eye
    · rw [if_pos he]
    · rw [if_neg he]
      exact h e k
  · exact h e k

theorem pipelineMaskedFrames_length (mL mR : List Bool) (alm : List AlignedFrame) :
    (pipelineMaskedFrames mL mR alm).length = alm.length := by
  simp [pipelineMaskedFrames, applyBlinkMask_length]

theorem load_length (lmRaw : List Frame) (pt : List Event) (onset offset : Event)
    (alm : List AlignedFrame) (dur : ℚ)
    (hOn : findEvent pt "FlashOn" = some onset) (hOff : findEvent pt "FlashOff" = some offset)
    (hload : load_plr_data lmRaw pt = .ok (alm, dur)) :
    alm.length = lmRaw.length := by
  have h2 := hload
  rw [load_plr_data_ok lmRaw pt onset offset hOn hOff] at h2
  simp only [Except.ok.injEq, Prod.mk.injEq] at h2
  obtain ⟨halm, _⟩ := h2
  rw [← halm]
  simp

theorem load_coords_nan (lmRaw : List Frame) (pt : List Event) (onset offset : Event)
    (alm : List AlignedFrame) (dur : ℚ) (i : ℕ)
    (hOn : findEvent pt "FlashOn" = some onset) (hOff : findEvent pt "FlashOff" = some offset)
    (hload : load_plr_data lmRaw pt = .ok (alm, dur))
    (hi : i < lmRaw.length) (hbad : (lmRaw.getD i default).retcode ≠ "OK") :
    ∀ e k, (alm.getD i default).coords e k = (PFloat.nan, PFloat.nan) := by
  have h2 := hload
  rw [load_plr_data_ok lmRaw pt onset offset hOn hOff] at h2
  simp only [Except.ok.injEq, Prod.mk.injEq] at h2
  obtain ⟨halm, _⟩ := h2
  subst halm
  have hlen : i < (lmRaw.map invalidateCoords).length := by simpa using hi
  intro e k
  rw [getD_map_of_lt _ _ default default hlen, getD_map_of_lt _ _ default default hi]
  show (invalidateCoords (lmRaw.getD i default)).coords e k = _
  rw [invalidateCoords_coords_of_bad _ hbad]

/-! NaN propagation through the derived columns. -/

theorem meanSkipna_all_nan (xs : List PFloat) (h : ∀ x ∈ xs, x = PFloat.nan) :
    meanSkipna xs = PFloat.nan := by
  have hf : xs.filter (fun x => !x.isNan) = [] := by
    rw [List.filter_eq_nil_iff]
    intro a ha
    rw [h a ha]
    simp [PFloat.isNan]
  simp [meanSkipna, hf]

theorem rowMean_at (cols : List (List PFloat)) (n i : ℕ) (hi : i < n) :
    colAt (rowMean cols n) i = meanSkipna (cols.map fun c => colAt c i) := by
  unfold rowMean colAt
  exact getD_map_range _ _ hi

theorem lmDist_nan_frame (s : ℚ → ℚ) (f : AlignedFrame) (eye : String) (l1 l2 : ℕ)
    (h : ∀ e k, f.coords e k = (PFloat.nan, PFloat.nan)) :
    lmDist s f eye l1 l2 = PFloat.nan := by
  unfold lmDist
  rw [h eye l1, h eye l2]
  rfl

theorem colAt_map_frame (g : AlignedFrame → PFloat) (lm : List AlignedFrame) (i : ℕ)
    (hi : i < lm.length) : colAt (lm.map g) i = g (lm.getD i default) :=
  getD_map_of_lt _ _ _ default hi

theorem rollingWeightedMean_nan_at (w : List ℚ) (xs : List PFloat) (i : ℕ)
    (hw : 1 ≤ w.length) (hi : i < xs.length) (hx : colAt xs i = PFloat.nan) :
    colAt (rollingWeightedMean w xs) i = PFloat.nan := by
  unfold rollingWeightedMean
  show ((List.range xs.length).map _).getD i PFloat.nan = PFloat.nan
  rw [getD_map_range _ _ hi]
  by_cases hcond : (w.length - 1) / 2 ≤ i ∧ i + w.length / 2 < xs.length
  · rw [if_pos hcond]
    have hmem : PFloat.nan ∈ (List.range w.length).map fun k =>
        colAt xs (i - (w.length - 1) / 2 + k) := by
      refine List.mem_map.mpr ⟨(w.length - 1) / 2, List.mem_range.mpr (by omega), ?_⟩
      rw [show i - (w.length - 1) / 2 + (w.length - 1) / 2 = i from by omega]
      exact hx
    have hany : ((List.range w.length).map fun k =>
        colAt xs (i - (w.length - 1) / 2 + k)).any PFloat.isNan = true :=
      List.any_eq_true.mpr ⟨PFloat.nan, hmem, rfl⟩
    simp [hany]
  · rw [if_neg hcond]

/-- A DataFrame column lookup returns the empty column (name not present)
or the data of one of the DataFrame entries. -/
theorem dfCol_cases (df : List (String × List PFloat)) (name : String) :
    dfCol df name = [] ∨ ∃ nc, nc ∈ df ∧ dfCol df name = nc.2 := by
  unfold dfCol
  cases h : df.find? (fun p => p.1 == name) with
  | none => simp
  | some nc => exact Or.inr ⟨nc, List.mem_of_find?_eq_some h, by simp⟩

theorem dfCol_nan_of_all (df : List (String × List PFloat)) (name : String) (i : ℕ)
    (h : ∀ nc ∈ df, colAt nc.2 i = PFloat.nan) :
    colAt (dfCol df name) i = PFloat.nan := by
  rcases dfCol_cases df name with h0 | ⟨nc, hnc, h0⟩
  · rw [h0]
    rfl
  · rw [h0]
    exact h nc hnc

theorem rowMean_nan_at (cols : List (List PFloat)) (n i : ℕ) (hi : i < n)
    (h : ∀ c ∈ cols, colAt c i = PFloat.nan) :
    colAt (rowMean cols n) i = PFloat.nan := by
  rw [rowMean_at _ _ _ hi]
  apply meanSkipna_all_nan
  intro x hx
  obtain ⟨c, hc, rfl⟩ := List.mem_map.mp hx
  exact h c hc

theorem calculate_landmark_distance_cols_nan_at (s : ℚ → ℚ) (lm : List AlignedFrame)
    (eye : String) (lm_pairs : List (ℕ × ℕ × String)) (i : ℕ) (hi : i < lm.length)
    (hcoords : ∀ e k, (lm.getD i default).coords e k = (PFloat.nan, PFloat.nan)) :
    ∀ nc ∈ calculate_landmark_distance s lm eye lm_pairs, colAt nc.2 i = PFloat.nan := by
  intro nc hnc
  obtain ⟨t, _, rfl⟩ := List.mem_map.mp hnc
  rw [colAt_map_frame _ _ _ hi, lmDist_nan_frame s _ eye _ _ hcoords]

theorem calculate_landmark_distance_cols_length (s : ℚ → ℚ) (lm : List AlignedFrame)
    (eye : String) (lm_pairs : List (ℕ × ℕ × String)) :
    ∀ nc ∈ calculate_landmark_distance s lm eye lm_pairs, nc.2.length = lm.length := by
  intro nc hnc
  obtain ⟨t, _, rfl⟩ := List.mem_map.mp hnc
  simp

/-- Every column of the `calculate_pupil_size` DataFrame — the five distance
columns, the mean `pupil_size_px` and the calibrated `pupil_size_mm` — is
NaN at a frame whose landmark coordinates are all NaN. -/
theorem calculate_pupil_size_cols_nan_at (s : ℚ → ℚ) (lm : List AlignedFrame)
    (eye : String) (nominal : ℚ) (i : ℕ) (hi : i < lm.length)
    (hcoords : ∀ e k, (lm.getD i default).coords e k = (PFloat.nan, PFloat.nan)) :
    ∀ nc ∈ calculate_pupil_size s lm eye nominal, colAt nc.2 i = PFloat.nan := by
  have hdist := calculate_landmark_distance_cols_nan_at s lm eye pupilLmPairs i hi hcoords
  have hpx : ∀ nms : List String, colAt (rowMean (nms.map fun c =>
      dfCol (calculate_landmark_distance s lm eye pupilLmPairs) c) lm.length) i
        = PFloat.nan := by
    intro nms
    apply rowMean_nan_at _ _ _ hi
    intro c hc
    obtain ⟨nm, _, rfl⟩ := List.mem_map.mp hc
    exact dfCol_nan_of_all _ nm i hdist
  intro nc hnc
  simp only [calculate_pupil_size, List.mem_append, List.mem_cons, List.not_mem_nil,
    or_false] at hnc
  rcases hnc with hmem | rfl | rfl
  · exact hdist nc hmem
  · exact hpx _
  · show ((List.range lm.length).map _).getD i PFloat.nan = PFloat.nan
    rw [getD_map_range _ _ hi]
    have hnan := hpx (((calculate_landmark_distance s lm eye pupilLmPairs).map
      Prod.fst).filter fun c => c.endsWith "pupil_size_px")
    rw [show colAt (rowMean ((((calculate_landmark_distance s lm eye pupilLmPairs).map
        Prod.fst).filter fun c => c.endsWith "pupil_size_px").map fun c =>
        dfCol (calculate_landmark_distance s lm eye pupilLmPairs) c) lm.length) i
        = PFloat.nan from hnan, PFloat.nan_div, PFloat.nan_mul]

theorem calculate_pupil_size_cols_length (s : ℚ → ℚ) (lm : List AlignedFrame)
    (eye : String) (nominal : ℚ) :
    ∀ nc ∈ calculate_pupil_size s lm eye nominal, nc.2.length = lm.length := by
  intro nc hnc
  simp only [calculate_pupil_size, List.mem_append, List.mem_cons, List.not_mem_nil,
    or_false] at hnc
  rcases hnc with hmem | rfl | rfl
  · exact calculate_landmark_distance_cols_length s lm eye pupilLmPairs nc hmem
  · simp [rowMean]
  · simp

/-- Every column of the `calculate_eye_openness` DataFrame — the five
eyelid-gap distance columns and the openness index — is NaN at a frame
whose landmark coordinates are all NaN. -/
theorem calculate_eye_openness_cols_nan_at (s : ℚ → ℚ) (lm : List AlignedFrame)
    (eye : String) (i : ℕ) (hi : i < lm.length)
    (hcoords : ∀ e k, (lm.getD i default).coords e k = (PFloat.nan, PFloat.nan)) :
    ∀ nc ∈ calculate_eye_openness s lm eye, colAt nc.2 i = PFloat.nan := by
  have hdist := calculate_landmark_distance_cols_nan_at s lm eye opennessLmPairs i hi hcoords
  intro nc hnc
  simp only [calculate_eye_openness, List.mem_append, List.mem_cons, List.not_mem_nil,
    or_false] at hnc
  rcases hnc with hmem | rfl
  · exact hdist nc hmem
  · apply rowMean_nan_at _ _ _ hi
    intro c hc
    obtain ⟨nc2, hnc2, rfl⟩ := List.mem_map.mp hc
    have hlen : i < nc2.2.length := by
      rw [calculate_landmark_distance_cols_length s lm eye opennessLmPairs nc2 hnc2]
      exact hi
    show (nc2.2.map _).getD i PFloat.nan = PFloat.nan
    rw [getD_map_of_lt _ _ PFloat.nan PFloat.nan hlen,
      show nc2.2.getD i PFloat.nan = PFloat.nan from hdist nc2 hnc2, PFloat.nan_div]

/-- All derived per-eye series are NaN at a frame whose landmark
coordinates are all NaN: every landmark-pair distance, every column of the
pupil-size and eye-openness DataFrames (under any column lookup), and the
centered-weighted smoothing of any pupil-size column. -/
theorem derived_cols_nan_at (s : ℚ → ℚ) (lm2 : List AlignedFrame) (nominal : ℚ)
    (eye : String) (w : List ℚ) (i : ℕ) (hi : i < lm2.length) (hw : 1 ≤ w.length)
    (hcoords : ∀ e k, (lm2.getD i default).coords e k = (PFloat.nan, PFloat.nan)) :
    (∀ l1 l2, lmDist s (lm2.getD i default) eye l1 l2 = PFloat.nan)
    ∧ (∀ name, colAt (dfCol (calculate_pupil_size s lm2 eye nominal) name) i = PFloat.nan)
    ∧ (∀ name, colAt (dfCol (calculate_eye_openness s lm2 eye) name) i = PFloat.nan)
    ∧ (∀ name, colAt (rollingWeightedMean w
        (dfCol (calculate_pupil_size s lm2 eye nominal) name)) i = PFloat.nan) := by
  have hpupil := calculate_pupil_size_cols_nan_at s lm2 eye nominal i hi hcoords
  refine ⟨fun l1 l2 => lmDist_nan_frame s _ eye l1 l2 hcoords,
    fun name => dfCol_nan_of_all _ name i hpupil,
    fun name => dfCol_nan_of_all _ name i
      (calculate_eye_openness_cols_nan_at s lm2 eye i hi hcoords), ?_⟩
  intro name
  rcases dfCol_cases (calculate_pupil_size s lm2 eye nominal) name with h0 | ⟨nc, hnc, h0⟩
  · rw [h0]
    rfl
  · rw [h0]
    refine rollingWeightedMean_nan_at w _ i hw ?_ ?_
    · rw [calculate_pupil_size_cols_length s lm2 eye nominal nc hnc]
      exact hi
    · exact hpupil nc hnc

theorem openness_df_left (s : ℚ → ℚ) (lm : List AlignedFrame) :
    dfCol (calculate_eye_openness s lm "left") ("left" ++ "_mean_eye_openness_nz")
      = opennessCol s lm "left" := by
  with_unfolding_all rfl

set_option maxHeartbeats 2000000 in
theorem openness_df_right (s : ℚ → ℚ) (lm : List AlignedFrame) :
    dfCol (calculate_eye_openness s lm "right") ("right" ++ "_mean_eye_openness_nz")
      = opennessCol s lm "right" := by
  with_unfolding_all rfl

/-- Claim C1: at every frame whose retcode is not `OK`, every derived
per-eye value is missing in every downstream series — every landmark-pair
pixel distance, `pupil_size_px`, `iris_size_px`, `pupil_size_mm`, the
eye-openness index, and the centered-weighted-smoothed pupil size — for
both eyes (the statement holds for every eye name), whatever blink masks
the pipeline applies in between. -/
theorem c1_invalid_frame_all_derived_missing (s : ℚ → ℚ) (lmRaw : List Frame)
    (pt : List Event) (onset offset : Event) (alm : List AlignedFrame) (dur : ℚ)
    (mL mR : List Bool) (w : List ℚ) (nominal : ℚ) (eye : String) (i l1 l2 : ℕ)
    (hOn : findEvent pt "FlashOn" = some onset)
    (hOff : findEvent pt "FlashOff" = some offset)
    (hload : load_plr_data lmRaw pt = .ok (alm, dur))
    (hi : i < lmRaw.length)
    (hbad : (lmRaw.getD i default).retcode ≠ "OK")
    (hw : 1 ≤ w.length) :
    lmDist s ((pipelineMaskedFrames mL mR alm).getD i default) eye l1 l2 = PFloat.nan
    ∧ colAt (dfCol (calculate_pupil_size s (pipelineMaskedFrames mL mR alm) eye nominal)
        (eye ++ "_pupil_size_px")) i = PFloat.nan
    ∧ colAt (dfCol (calculate_pupil_size s (pipelineMaskedFrames mL mR alm) eye nominal)
        (eye ++ "_iris_size_px")) i = PFloat.nan
    ∧ colAt (dfCol (calculate_pupil_size s (pipelineMaskedFrames mL mR alm) eye nominal)
        (eye ++ "_pupil_size_mm")) i = PFloat.nan
    ∧ colAt (dfCol (calculate_eye_openness s (pipelineMaskedFrames mL mR alm) eye)
        (eye ++ "_mean_eye_openness_nz")) i = PFloat.nan
    ∧ colAt (rollingWeightedMean w
        (dfCol (calculate_pupil_size s (pipelineMaskedFrames mL mR alm) eye nominal)
          (eye ++ "_pupil_size_mm"))) i = PFloat.nan := by
  have hlen := load_length lmRaw pt onset offset alm dur hOn hOff hload
  have hcoords0 := load_coords_nan lmRaw pt onset offset alm dur i hOn hOff hload hi hbad
  have hi1 : i < alm.length := by omega
  have hcoords1 := applyBlinkMask_coords_nan mL "left" alm i hi1 hcoords0
  have hi2 : i < (applyBlinkMask mL "left" alm).length := by
    rw [applyBlinkMask_length]
    exact hi1
  have hcoords : ∀ e k, ((pipelineMaskedFrames mL mR alm).getD i default).coords e k
      = (PFloat.nan, PFloat.nan) :=
    applyBlinkMask_coords_nan mR "right" _ i hi2 hcoords1
  have hi3 : i < (pipelineMaskedFrames mL mR alm).length := by
    rw [pipelineMaskedFrames_length]
    exact hi1
  obtain ⟨hd, hpupil, hop, hsm⟩ :=
    derived_cols_nan_at s (pipelineMaskedFrames mL mR alm) nominal eye w i hi3 hw hcoords
  exact ⟨hd l1 l2, hpupil _, hpupil _, hpupil _, hop _, hsm _⟩

/-- Witness for C1: a one-frame recording whose single frame has a failing
retcode; every derived series is NaN at that frame. -/
theorem c1_invalid_frame_all_derived_missing_witness :
    lmDist id ((pipelineMaskedFrames [] [] c1Aligned).getD 0 default) "left" 0 0 = PFloat.nan
    ∧ colAt (dfCol (calculate_pupil_size id (pipelineMaskedFrames [] [] c1Aligned) "left"
        (117/10)) ("left" ++ "_pupil_size_px")) 0 = PFloat.nan
    ∧ colAt (dfCol (calculate_pupil_size id (pipelineMaskedFrames [] [] c1Aligned) "left"
        (117/10)) ("left" ++ "_iris_size_px")) 0 = PFloat.nan
    ∧ colAt (dfCol (calculate_pupil_size id (pipelineMaskedFrames [] [] c1Aligned) "left"
        (117/10)) ("left" ++ "_pupil_size_mm")) 0 = PFloat.nan
    ∧ colAt (dfCol (calculate_eye_openness id (pipelineMaskedFrames [] [] c1Aligned) "left")
        ("left" ++ "_mean_eye_openness_nz")) 0 = PFloat.nan
    ∧ colAt (rollingWeightedMean [1]
        (dfCol (calculate_pupil_size id (pipelineMaskedFrames [] [] c1Aligned) "left"
          (117/10)) ("left" ++ "_pupil_size_mm"))) 0 = PFloat.nan := by
  exact c1_invalid_frame_all_derived_missing id [c1BadFrame] c5Protocol
    { time := 100, event := "FlashOn" } { time := 350, event := "FlashOff" } c1Aligned 250
    [] [] [1] (117/10) "left" 0 0 0 (by rfl) (by rfl) (by with_unfolding_all rfl)
    (by decide) (by decide) (by decide)

/-! The openness index lies in the unit interval wherever it is defined. -/

theorem colAt_mem (xs : List PFloat) (i : ℕ) (hi : i < xs.length) : colAt xs i ∈ xs := by
  unfold colAt
  rw [List.getD_eq_getElem?_getD, List.getElem?_eq_getElem hi]
  exact List.getElem_mem hi

theorem colAt_of_le (xs : List PFloat) (i : ℕ) (h : xs.length ≤ i) :
    colAt xs i = PFloat.nan := by
  unfold colAt
  rw [List.getD_eq_getElem?_getD, List.getElem?_eq_none h]
  rfl

theorem domLe_maxStep (a x : PFloat) : PFloat.domLe x (maxStep a x) := by
  cases x with
  | nan => trivial
  | ninf => trivial
  | inf =>
    cases a <;> simp [maxStep, PFloat.isNan, PFloat.lt, PFloat.domLe]
  | fin q =>
    cases a with
    | nan => simp [maxStep, PFloat.isNan, PFloat.domLe]
    | inf => simp [maxStep, PFloat.isNan, PFloat.lt, PFloat.domLe]
    | ninf => simp [maxStep, PFloat.isNan, PFloat.lt, PFloat.domLe]
    | fin b =>
      by_cases hlt : b < q
      · simp [maxStep, PFloat.isNan, PFloat.lt, PFloat.domLe, hlt]
      · simp only [maxStep, PFloat.isNan, PFloat.lt, PFloat.domLe, Bool.false_eq_true,
          if_false]
        rw [if_neg (by simp [hlt])]
        exact Or.inr ⟨b, rfl, le_of_not_lt hlt⟩

theorem domLe_maxStep_mono (x a y : PFloat) (h : PFloat.domLe x a) :
    PFloat.domLe x (maxStep a y) := by
  cases x with
  | nan => trivial
  | ninf => trivial
  | inf =>
    simp only [PFloat.domLe] at h
    subst h
    cases y <;> simp [maxStep, PFloat.isNan, PFloat.lt, PFloat.domLe]
  | fin q =>
    simp only [PFloat.domLe] at h ⊢
    rcases h with rfl | ⟨r, rfl, hqr⟩
    · cases y <;> simp [maxStep, PFloat.isNan, PFloat.lt]
    · cases y with
      | nan => exact Or.inr ⟨r, rfl, hqr⟩
      | inf => simp [maxStep, PFloat.isNan, PFloat.lt]
      | ninf =>
        simp only [maxStep, PFloat.isNan, PFloat.lt, Bool.false_eq_true, if_false]
        exact Or.inr ⟨r, rfl, hqr⟩
      | fin t =>
        by_cases hlt : r < t
        · simp only [maxStep, PFloat.isNan, PFloat.lt, Bool.false_eq_true, if_false]
          rw [if_pos (by simp [hlt])]
          exact Or.inr ⟨t, rfl, le_of_lt (lt_of_le_of_lt hqr hlt)⟩
        · simp only [maxStep, PFloat.isNan, PFloat.lt, Bool.false_eq_true, if_false]
          rw [if_neg (by simp [hlt])]
          exact Or.inr ⟨r, rfl, hqr⟩

theorem domLe_foldl_maxStep (l : List PFloat) (a x : PFloat) (h : PFloat.domLe x a) :
    PFloat.domLe x (l.foldl maxStep a) := by
  induction l generalizing a with
  | nil => exact h
  | cons y t ih => exact ih _ (domLe_maxStep_mono x a y h)

theorem colMax_domLe (xs : List PFloat) (x : PFloat) (hx : x ∈ xs) :
    PFloat.domLe x (colMax xs) := by
  unfold colMax
  generalize PFloat.nan = a
  induction xs generalizing a with
  | nil => cases hx
  | cons y t ih =>
    rcases List.mem_cons.mp hx with rfl | hx2
    · exact domLe_foldl_maxStep t (maxStep a x) x (domLe_maxStep a x)
    · exact ih hx2 _

/-- Each self-normalized ratio entry is NaN or a finite value in `[0, 1]`,
provided the underlying column has only NaN, `inf`, or finite non-negative
entries. -/
theorem ratio_entry_cases (col : List PFloat) (i : ℕ)
    (hcol : ∀ x ∈ col, x = PFloat.nan ∨ x = PFloat.inf ∨ ∃ q : ℚ, x = PFloat.fin q ∧ 0 ≤ q) :
    (colAt (col.map fun v => PFloat.div v (colMax col)) i).isNan = true
    ∨ (colAt (col.map fun v => PFloat.div v (colMax col)) i).inUnitInterval = true := by
  by_cases hi : i < col.length
  · have heq : colAt (col.map fun v => PFloat.div v (colMax col)) i
        = PFloat.div (colAt col i) (colMax col) := by
      show (col.map _).getD i PFloat.nan = _
      rw [getD_map_of_lt _ _ PFloat.nan PFloat.nan hi]
      rfl
    rw [heq]
    have hmem := colAt_mem col i hi
    have hdom := colMax_domLe col _ hmem
    rcases hcol _ hmem with hx | hx | ⟨q, hx, hq⟩
    · rw [hx, PFloat.nan_div]
      exact Or.inl rfl
    · rw [hx] at hdom
      simp only [PFloat.domLe] at hdom
      rw [hx, hdom]
      exact Or.inl rfl
    · rw [hx] at hdom
      simp only [PFloat.domLe] at hdom
      rw [hx]
      rcases hdom with hm | ⟨r, hm, hqr⟩
      · rw [hm]
        right
        rw [show PFloat.div (PFloat.fin q) PFloat.inf = PFloat.fin 0 from rfl]
        decide
      · rw [hm]
        by_cases hr : r = 0
        · subst hr
          have hq0 : q = 0 := le_antisymm hqr hq
          subst hq0
          exact Or.inl (by simp [PFloat.div, PFloat.isNan])
        · right
          have hrpos : 0 < r := lt_of_le_of_ne (le_trans hq hqr) (Ne.symm hr)
          rw [show PFloat.div (PFloat.fin q) (PFloat.fin r) = PFloat.fin (q / r) by
            simp [PFloat.div, hr]]
          show decide (0 ≤ q / r ∧ q / r ≤ 1) = true
          rw [decide_eq_true_eq]
          exact ⟨div_nonneg hq (le_of_lt hrpos), (div_le_one hrpos).mpr hqr⟩
  · rw [colAt_of_le _ _ (by simpa using not_lt.mp hi)]
    exact Or.inl rfl

theorem foldl_add_unit_bounds (l : List PFloat) (a : ℚ)
    (hl : ∀ x ∈ l, ∃ q : ℚ, x = PFloat.fin q ∧ 0 ≤ q ∧ q ≤ 1) :
    ∃ σ : ℚ, l.foldl PFloat.add (PFloat.fin a) = PFloat.fin σ ∧ a ≤ σ
      ∧ σ ≤ a + l.length := by
  induction l generalizing a with
  | nil => exact ⟨a, rfl, le_refl _, by simp⟩
  | cons x t ih =>
    obtain ⟨q, rfl, hq0, hq1⟩ := hl x (List.mem_cons_self x t)
    obtain ⟨σ, hσ, h1, h2⟩ := ih (a + q) fun y hy => hl y (List.mem_cons_of_mem _ hy)
    refine ⟨σ, hσ, by linarith, ?_⟩
    rw [List.length_cons]
    push_cast
    linarith

/-- A `skipna` mean of entries that are each NaN or finite in `[0, 1]` is
NaN (all entries NaN) or finite in `[0, 1]`. -/
theorem meanSkipna_unit (xs : List PFloat)
    (h : ∀ x ∈ xs, x.isNan = true ∨ x.inUnitInterval = true) :
    (meanSkipna xs).isNan = true ∨ (meanSkipna xs).inUnitInterval = true := by
  unfold meanSkipna
  by_cases h0 : (xs.filter fun x => !x.isNan).length = 0
  · rw [if_pos h0]
    exact Or.inl rfl
  · rw [if_neg h0]
    have hall : ∀ x ∈ xs.filter fun x => !x.isNan,
        ∃ q : ℚ, x = PFloat.fin q ∧ 0 ≤ q ∧ q ≤ 1 := by
      intro x hx
      have hmem := List.mem_of_mem_filter hx
      have hfil := List.of_mem_filter hx
      rcases h x hmem with hnan | hunit
      · rw [hnan] at hfil
        simp at hfil
      · cases x with
        | fin q =>
          rw [show (PFloat.fin q).inUnitInterval = decide (0 ≤ q ∧ q ≤ 1) from rfl,
            decide_eq_true_eq] at hunit
          exact ⟨q, rfl, hunit.1, hunit.2⟩
        | nan => simp [PFloat.inUnitInterval] at hunit
        | inf => simp [PFloat.inUnitInterval] at hunit
        | ninf => simp [PFloat.inUnitInterval] at hunit
    obtain ⟨σ, hσ, h1, h2⟩ := foldl_add_unit_bounds (xs.filter fun x => !x.isNan) 0 hall
    rw [hσ]
    right
    have hkpos : (0 : ℚ) < ((xs.filter fun x => !x.isNan).length : ℚ) := by
      exact_mod_cast Nat.pos_of_ne_zero h0
    rw [show PFloat.div (PFloat.fin σ)
        (PFloat.fin ((xs.filter fun x => !x.isNan).length : ℚ))
        = PFloat.fin (σ / ((xs.filter fun x => !x.isNan).length : ℚ)) by
      simp [PFloat.div, ne_of_gt hkpos]]
    rw [show (PFloat.fin (σ / ((xs.filter fun x => !x.isNan).length : ℚ))).inUnitInterval
        = decide (0 ≤ σ / ((xs.filter fun x => !x.isNan).length : ℚ)
          ∧ σ / ((xs.filter fun x => !x.isNan).length : ℚ) ≤ 1) from rfl,
      decide_eq_true_eq]
    constructor
    · exact div_nonneg (by linarith) (le_of_lt hkpos)
    · rw [div_le_one hkpos]
      linarith

/-- The openness column is NaN or in `[0, 1]` at every position, for any
eye and any square-root model that is non-negative on non-negative
arguments. -/
theorem opennessCol_unit (s : ℚ → ℚ) (hs : ∀ q, 0 ≤ q → 0 ≤ s q)
    (lm : List AlignedFrame) (eye : String) (i : ℕ) :
    (colAt (opennessCol s lm eye) i).isNan = true
    ∨ (colAt (opennessCol s lm eye) i).inUnitInterval = true := by
  by_cases hi : i < lm.length
  · unfold opennessCol
    rw [rowMean_at _ _ _ hi]
    apply meanSkipna_unit
    intro x hx
    simp only [List.map_cons, List.map_nil, List.mem_cons, List.not_mem_nil, or_false] at hx
    have hratio : ∀ l1 l2 : ℕ,
        (colAt (opennessRatioCol s lm eye l1 l2) i).isNan = true
        ∨ (colAt (opennessRatioCol s lm eye l1 l2) i).inUnitInterval = true := by
      intro l1 l2
      apply ratio_entry_cases
      intro v hv
      obtain ⟨f, _, rfl⟩ := List.mem_map.mp hv
      exact lmDist_cases s hs f eye l1 l2
    rcases hx with rfl | rfl | rfl | rfl | rfl <;> exact hratio _ _
  · unfold opennessCol
    rw [colAt_of_le _ _ (by simp [rowMean]; omega)]
    exact Or.inl rfl

/-- Claim C10: wherever the eye-openness index computed by
`calculate_eye_openness` is defined (not NaN), its value lies in `[0, 1]`:
each eyelid-gap distance is non-negative and bounded by that metric's own
recording-wide maximum, so the skipna-mean of the five per-metric ratios
stays in the unit interval. -/
theorem c10_openness_in_unit_interval (s : ℚ → ℚ) (lm : List AlignedFrame) (eye : String)
    (i : ℕ) (hs : ∀ q, 0 ≤ q → 0 ≤ s q) (heye : eye = "left" ∨ eye = "right") :
    (colAt (dfCol (calculate_eye_openness s lm eye) (eye ++ "_mean_eye_openness_nz")) i).isNan
        = true
    ∨ (colAt (dfCol (calculate_eye_openness s lm eye)
        (eye ++ "_mean_eye_openness_nz")) i).inUnitInterval = true := by
  rcases heye with rfl | rfl
  · rw [openness_df_left]
    exact opennessCol_unit s hs lm "left" i
  · rw [openness_df_right]
    exact opennessCol_unit s hs lm "right" i

/-- Witness for C10 at a concrete one-frame series with positive eyelid
gaps; the square-root model is the identity function. -/
theorem c10_openness_in_unit_interval_witness :
    (colAt (dfCol (calculate_eye_openness id c10Aligned "left")
        ("left" ++ "_mean_eye_openness_nz")) 0).isNan = true
    ∨ (colAt (dfCol (calculate_eye_openness id c10Aligned "left")
        ("left" ++ "_mean_eye_openness_nz")) 0).inUnitInterval = true := by
  exact c10_openness_in_unit_interval id c10Aligned "left" 0 (fun q hq => hq) (Or.inl rfl)

/-! Signal-quality: non-negativity and the constant-series case. -/

theorem foldl_add_nonneg (l : List PFloat) (a : PFloat)
    (ha : a = PFloat.inf ∨ ∃ q : ℚ, a = PFloat.fin q ∧ 0 ≤ q)
    (hl : ∀ x ∈ l, x = PFloat.inf ∨ ∃ q : ℚ, x = PFloat.fin q ∧ 0 ≤ q) :
    l.foldl PFloat.add a = PFloat.inf
    ∨ ∃ σ : ℚ, l.foldl PFloat.add a = PFloat.fin σ ∧ 0 ≤ σ := by
  induction l generalizing a with
  | nil => exact ha
  | cons x t ih =>
    refine ih (PFloat.add a x) ?_ fun y hy => hl y (List.mem_cons_of_mem _ hy)
    rcases ha with rfl | ⟨q, rfl, hq⟩ <;>
      rcases hl x (List.mem_cons_self x t) with rfl | ⟨r, hr, hr0⟩
    · exact Or.inl rfl
    · rw [hr]
      exact Or.inl rfl
    · exact Or.inl rfl
    · rw [hr]
      exact Or.inr ⟨q + r, rfl, by linarith⟩

theorem meanSkipna_nonneg (xs : List PFloat)
    (h : ∀ x ∈ xs, x.isNan = true ∨ x = PFloat.inf ∨ ∃ q : ℚ, x = PFloat.fin q ∧ 0 ≤ q)
    (hex : ∃ x ∈ xs, x.isNan = false) :
    meanSkipna xs = PFloat.inf ∨ ∃ q : ℚ, meanSkipna xs = PFloat.fin q ∧ 0 ≤ q := by
  unfold meanSkipna
  obtain ⟨x0, hx0, hx0n⟩ := hex
  have hmemb : x0 ∈ xs.filter fun x => !x.isNan :=
    List.mem_filter.mpr ⟨hx0, by simp [hx0n]⟩
  have h0 : ¬ (xs.filter fun x => !x.isNan).length = 0 := by
    intro hlen
    rw [List.length_eq_zero] at hlen
    rw [hlen] at hmemb
    cases hmemb
  rw [if_neg h0]
  have hall : ∀ x ∈ xs.filter fun x => !x.isNan,
      x = PFloat.inf ∨ ∃ q : ℚ, x = PFloat.fin q ∧ 0 ≤ q := by
    intro x hx
    rcases h x (List.mem_of_mem_filter hx) with hnan | hrest
    · have := List.of_mem_filter hx
      rw [hnan] at this
      simp at this
    · exact hrest
  have hknn : ¬ (((xs.filter fun x => !x.isNan).length : ℚ) < 0) :=
    not_lt.mpr (Nat.cast_nonneg _)
  have hkne : (((xs.filter fun x => !x.isNan).length : ℚ)) ≠ 0 :=
    Nat.cast_ne_zero.mpr h0
  rcases foldl_add_nonneg _ (PFloat.fin 0) (Or.inr ⟨0, rfl, le_refl 0⟩) hall with
    hres | ⟨σ, hres, hσ⟩
  · rw [hres]
    left
    show (if ((xs.filter fun x => !x.isNan).length : ℚ) < 0 then PFloat.ninf else PFloat.inf)
      = PFloat.inf
    rw [if_neg hknn]
  · rw [hres]
    right
    refine ⟨σ / ((xs.filter fun x => !x.isNan).length : ℚ), ?_, ?_⟩
    · show (if ((xs.filter fun x => !x.isNan).length : ℚ) = 0 then _ else
        PFloat.fin (σ / ((xs.filter fun x => !x.isNan).length : ℚ))) = _
      rw [if_neg hkne]
    · exact div_nonneg hσ (le_of_not_lt hknn)

theorem sqrtF_nonneg_kind (s : ℚ → ℚ) (hs : ∀ q, 0 ≤ q → 0 ≤ s q) (x : PFloat)
    (hx : x = PFloat.inf ∨ ∃ q : ℚ, x = PFloat.fin q ∧ 0 ≤ q) :
    sqrtF s x = PFloat.inf ∨ ∃ q : ℚ, sqrtF s x = PFloat.fin q ∧ 0 ≤ q := by
  rcases hx with rfl | ⟨q, rfl, hq⟩
  · exact Or.inl rfl
  · right
    refine ⟨s q, ?_, hs q hq⟩
    show (if q < 0 then PFloat.nan else PFloat.fin (s q)) = PFloat.fin (s q)
    rw [if_neg (not_lt.mpr hq)]

theorem hasFinStep_spec (xs : List PFloat) (h : hasFinStep xs = true) :
    ∃ i, i + 1 < xs.length ∧ (colAt xs i).isFin = true ∧ (colAt xs (i + 1)).isFin = true := by
  unfold hasFinStep at h
  obtain ⟨i, _, hcond⟩ := List.any_eq_true.mp h
  simp only [Bool.and_eq_true, decide_eq_true_eq] at hcond
  exact ⟨i, hcond.1.1, hcond.1.2, hcond.2⟩

theorem isFin_exists (x : PFloat) (h : x.isFin = true) : ∃ q : ℚ, x = PFloat.fin q := by
  cases x with
  | fin q => exact ⟨q, rfl⟩
  | nan => simp [PFloat.isFin] at h
  | inf => simp [PFloat.isFin] at h
  | ninf => simp [PFloat.isFin] at h

theorem diffP_at (xs : List PFloat) (j : ℕ) (hj : j < xs.length) :
    colAt (diffP xs) j = if j = 0 then PFloat.nan
      else PFloat.sub (colAt xs j) (colAt xs (j - 1)) := by
  unfold diffP colAt
  exact getD_map_range _ _ hj

theorem diffP_length (xs : List PFloat) : (diffP xs).length = xs.length := by
  simp [diffP]

/-- RMS of successive differences is `inf` or a finite non-negative value
whenever the series has a pair of consecutive finite samples. -/
theorem rms_s2s_nonneg (s : ℚ → ℚ) (hs : ∀ q, 0 ≤ q → 0 ≤ s q) (xs : List PFloat)
    (hstep : hasFinStep xs = true) :
    rms_s2s s xs = PFloat.inf ∨ ∃ q : ℚ, rms_s2s s xs = PFloat.fin q ∧ 0 ≤ q := by
  obtain ⟨i, hlen, hfin1, hfin2⟩ := hasFinStep_spec xs hstep
  obtain ⟨a, ha⟩ := isFin_exists _ hfin1
  obtain ⟨b, hb⟩ := isFin_exists _ hfin2
  unfold rms_s2s
  apply sqrtF_nonneg_kind s hs
  apply meanSkipna_nonneg
  · intro x hx
    obtain ⟨d, _, rfl⟩ := List.mem_map.mp hx
    rcases PFloat.sq_cases d with hd | hd | ⟨q, hd, hq⟩
    · rw [hd]
      exact Or.inl rfl
    · rw [hd]
      exact Or.inr (Or.inl rfl)
    · rw [hd]
      exact Or.inr (Or.inr ⟨q, rfl, hq⟩)
  · have hmlen : i + 1 < ((diffP xs).map fun d => PFloat.mul d d).length := by
      rw [List.length_map, diffP_length]
      exact hlen
    refine ⟨colAt ((diffP xs).map fun d => PFloat.mul d d) (i + 1),
      colAt_mem _ _ hmlen, ?_⟩
    have hdlen : i + 1 < (diffP xs).length := by
      rw [diffP_length]
      exact hlen
    have hstepval : colAt (diffP xs) (i + 1) = PFloat.fin (b - a) := by
      rw [diffP_at xs (i + 1) (by omega), if_neg (Nat.succ_ne_zero i)]
      rw [show i + 1 - 1 = i from rfl, hb, ha]
      show PFloat.fin (b + -a) = PFloat.fin (b - a)
      rw [← sub_eq_add_neg]
    have : colAt ((diffP xs).map fun d => PFloat.mul d d) (i + 1)
        = PFloat.fin ((b - a) * (b - a)) := by
      show ((diffP xs).map _).getD (i + 1) PFloat.nan = _
      rw [getD_map_of_lt _ _ PFloat.nan PFloat.nan hdlen]
      rw [show (diffP xs).getD (i + 1) PFloat.nan = PFloat.fin (b - a) from hstepval]
      rfl
    rw [this]
    rfl

theorem avg2_isNonneg (x y : PFloat)
    (hx : x = PFloat.inf ∨ ∃ q : ℚ, x = PFloat.fin q ∧ 0 ≤ q)
    (hy : y = PFloat.inf ∨ ∃ q : ℚ, y = PFloat.fin q ∧ 0 ≤ q) :
    (PFloat.div (PFloat.add x y) (PFloat.fin 2)).isNonneg = true := by
  have h2 : ¬ ((2 : ℚ) < 0) := by norm_num
  have h2ne : (2 : ℚ) ≠ 0 := by norm_num
  rcases hx with rfl | ⟨q, rfl, hq⟩ <;> rcases hy with rfl | ⟨r, rfl, hr⟩
  · show (if (2:ℚ) < 0 then PFloat.ninf else PFloat.inf).isNonneg = true
    rw [if_neg h2]
    rfl
  · show (if (2:ℚ) < 0 then PFloat.ninf else PFloat.inf).isNonneg = true
    rw [if_neg h2]
    rfl
  · show (if (2:ℚ) < 0 then PFloat.ninf else PFloat.inf).isNonneg = true
    rw [if_neg h2]
    rfl
  · show (PFloat.div (PFloat.fin (q + r)) (PFloat.fin 2)).isNonneg = true
    rw [show PFloat.div (PFloat.fin (q + r)) (PFloat.fin 2) = PFloat.fin ((q + r) / 2) by
      show (if (2 : ℚ) = 0 then (if q + r = 0 then PFloat.nan else if 0 < q + r then PFloat.inf
        else PFloat.ninf) else PFloat.fin ((q + r) / 2)) = PFloat.fin ((q + r) / 2)
      rw [if_neg h2ne]]
    show decide (0 ≤ (q + r) / 2) = true
    rw [decide_eq_true_eq]
    positivity

theorem constFin_colAt (xs : List PFloat) (h : constFin xs = true) :
    ∃ c : ℚ, ∀ j, j < xs.length → colAt xs j = PFloat.fin c := by
  cases xs with
  | nil => simp [constFin] at h
  | cons x t =>
    rw [show constFin (x :: t) = (x.isFin && t.all fun y => decide (y = x)) from rfl,
      Bool.and_eq_true] at h
    obtain ⟨hfin, hall⟩ := h
    obtain ⟨c, rfl⟩ := isFin_exists x hfin
    refine ⟨c, ?_⟩
    intro j hj
    cases j with
    | zero => rfl
    | succ n =>
      have hn : n < t.length := by simpa using hj
      have hmem : colAt t n ∈ t := colAt_mem t n hn
      have := List.all_eq_true.mp hall _ hmem
      rw [decide_eq_true_eq] at this
      rw [show colAt (PFloat.fin c :: t) (n + 1) = colAt t n from rfl]
      exact this

theorem foldl_add_zeros (l : List PFloat) (a : ℚ) (h : ∀ x ∈ l, x = PFloat.fin 0) :
    l.foldl PFloat.add (PFloat.fin a) = PFloat.fin a := by
  induction l generalizing a with
  | nil => rfl
  | cons x t ih =>
    rw [List.foldl_cons, h x (List.mem_cons_self x t),
      show PFloat.add (PFloat.fin a) (PFloat.fin 0) = PFloat.fin a by
        show PFloat.fin (a + 0) = PFloat.fin a
        rw [add_zero]]
    exact ih a fun y hy => h y (List.mem_cons_of_mem _ hy)

/-- RMS of successive differences of a perfectly constant series of at
least two samples is exactly 0 (given `s 0 = 0`, true of `np.sqrt`). -/
theorem rms_s2s_const_zero (s : ℚ → ℚ) (hs0 : s 0 = 0) (xs : List PFloat)
    (hconst : constFin xs = true) (hlen : 2 ≤ xs.length) :
    rms_s2s s xs = PFloat.fin 0 := by
  obtain ⟨c, hc⟩ := constFin_colAt xs hconst
  have hsq : ∀ y ∈ (diffP xs).map fun d => PFloat.mul d d,
      y = PFloat.nan ∨ y = PFloat.fin 0 := by
    intro y hy
    obtain ⟨d, hd, rfl⟩ := List.mem_map.mp hy
    unfold diffP at hd
    obtain ⟨j, hjr, rfl⟩ := List.mem_map.mp hd
    have hjlt := List.mem_range.mp hjr
    by_cases hj0 : j = 0
    · subst hj0
      left
      rfl
    · right
      rw [if_neg hj0, hc j hjlt, hc (j - 1) (by omega),
        show PFloat.sub (PFloat.fin c) (PFloat.fin c) = PFloat.fin 0 by
          show PFloat.fin (c + -c) = PFloat.fin 0
          rw [add_neg_cancel],
        show PFloat.mul (PFloat.fin 0) (PFloat.fin 0) = PFloat.fin 0 by
          show PFloat.fin (0 * 0) = PFloat.fin 0
          rw [mul_zero]]
  have hat1 : colAt ((diffP xs).map fun d => PFloat.mul d d) 1 = PFloat.fin 0 := by
    have hdlen : 1 < (diffP xs).length := by
      rw [diffP_length]
      omega
    show ((diffP xs).map _).getD 1 PFloat.nan = _
    rw [getD_map_of_lt _ _ PFloat.nan PFloat.nan hdlen,
      show (diffP xs).getD 1 PFloat.nan = colAt (diffP xs) 1 from rfl,
      diffP_at xs 1 (by omega), if_neg one_ne_zero, hc 1 (by omega), hc 0 (by omega),
      show PFloat.sub (PFloat.fin c) (PFloat.fin c) = PFloat.fin 0 by
        show PFloat.fin (c + -c) = PFloat.fin 0
        rw [add_neg_cancel]]
    show PFloat.fin (0 * 0) = PFloat.fin 0
    rw [mul_zero]
  have hmlen : 1 < ((diffP xs).map fun d => PFloat.mul d d).length := by
    rw [List.length_map, diffP_length]
    omega
  unfold rms_s2s
  have hmean : meanSkipna ((diffP xs).map fun d => PFloat.mul d d) = PFloat.fin 0 := by
    unfold meanSkipna
    have hmemb : PFloat.fin 0 ∈ ((diffP xs).map fun d => PFloat.mul d d).filter
        fun x => !x.isNan := by
      apply List.mem_filter.mpr
      refine ⟨?_, by simp [PFloat.isNan]⟩
      rw [← hat1]
      exact colAt_mem _ _ hmlen
    have h0 : ¬ (((diffP xs).map fun d => PFloat.mul d d).filter
        fun x => !x.isNan).length = 0 := by
      intro hz
      rw [List.length_eq_zero] at hz
      rw [hz] at hmemb
      cases hmemb
    rw [if_neg h0]
    have hzeros : ∀ x ∈ ((diffP xs).map fun d => PFloat.mul d d).filter fun x => !x.isNan,
        x = PFloat.fin 0 := by
      intro x hx
      rcases hsq x (List.mem_of_mem_filter hx) with rfl | rfl
      · have := List.of_mem_filter hx
        simp [PFloat.isNan] at this
      · rfl
    rw [foldl_add_zeros _ 0 hzeros]
    have hkne : (((((diffP xs).map fun d => PFloat.mul d d).filter
        fun x => !x.isNan).length : ℚ)) ≠ 0 := Nat.cast_ne_zero.mpr h0
    show (if ((((diffP xs).map fun d => PFloat.mul d d).filter
        fun x => !x.isNan).length : ℚ) = 0 then (if (0 : ℚ) = 0 then PFloat.nan
        else if 0 < (0 : ℚ) then PFloat.inf else PFloat.ninf)
      else PFloat.fin (0 / ((((diffP xs).map fun d => PFloat.mul d d).filter
        fun x => !x.isNan).length : ℚ))) = PFloat.fin 0
    rw [if_neg hkne, zero_div]
  rw [hmean]
  show (if (0 : ℚ) < 0 then PFloat.nan else PFloat.fin (s 0)) = PFloat.fin 0
  rw [if_neg (lt_irrefl 0), hs0]

/-- Claim C8 (amended): the two signal-quality scores are non-negative
whenever each of the four restricted series (raw and smoothed pupil size,
both eyes, over the stable interval) contains at least one pair of
consecutive finite samples; and both scores equal 0 whenever those
restricted series are perfectly constant with at least two samples.
(The original claim fails without the consecutive-finite-samples proviso:
a degenerate stable interval makes the scores NaN, see the
counterexample.) -/
theorem c8_signal_quality_nonneg (s : ℚ → ℚ) (timeIdx : List ℚ)
    (df : List (String × List PFloat)) (t0 t1 : ℚ)
    (hs : ∀ q, 0 ≤ q → 0 ≤ s q) (hs0 : s 0 = 0)
    (h1 : hasFinStep (restrictIdx timeIdx (dfCol df "left_pupil_size_mm") t0 t1) = true)
    (h2 : hasFinStep (restrictIdx timeIdx (dfCol df "right_pupil_size_mm") t0 t1) = true)
    (h3 : hasFinStep (restrictIdx timeIdx (dfCol df "left_smooth_pupil_size_mm") t0 t1) = true)
    (h4 : hasFinStep (restrictIdx timeIdx (dfCol df "right_smooth_pupil_size_mm") t0 t1)
      = true) :
    (calculate_signal_quality s timeIdx df t0 t1).raw_signal_quality.isNonneg = true
    ∧ (calculate_signal_quality s timeIdx df t0 t1).smooth_signal_quality.isNonneg = true
    ∧ ((constFin (restrictIdx timeIdx (dfCol df "left_pupil_size_mm") t0 t1) = true
        ∧ constFin (restrictIdx timeIdx (dfCol df "right_pupil_size_mm") t0 t1) = true
        ∧ constFin (restrictIdx timeIdx (dfCol df "left_smooth_pupil_size_mm") t0 t1) = true
        ∧ constFin (restrictIdx timeIdx (dfCol df "right_smooth_pupil_size_mm") t0 t1) = true
        ∧ 2 ≤ (restrictIdx timeIdx (dfCol df "left_pupil_size_mm") t0 t1).length
        ∧ 2 ≤ (restrictIdx timeIdx (dfCol df "right_pupil_size_mm") t0 t1).length
        ∧ 2 ≤ (restrictIdx timeIdx (dfCol df "left_smooth_pupil_size_mm") t0 t1).length
        ∧ 2 ≤ (restrictIdx timeIdx (dfCol df "right_smooth_pupil_size_mm") t0 t1).length) →
      (calculate_signal_quality s timeIdx df t0 t1).raw_signal_quality = PFloat.fin 0
      ∧ (calculate_signal_quality s timeIdx df t0 t1).smooth_signal_quality = PFloat.fin 0) := by
  refine ⟨?_, ?_, ?_⟩
  · exact avg2_isNonneg _ _ (rms_s2s_nonneg s hs _ h1) (rms_s2s_nonneg s hs _ h2)
  · exact avg2_isNonneg _ _ (rms_s2s_nonneg s hs _ h3) (rms_s2s_nonneg s hs _ h4)
  · rintro ⟨hc1, hc2, hc3, hc4, hl1, hl2, hl3, hl4⟩
    constructor
    · show PFloat.div (PFloat.add
        (rms_s2s s (restrictIdx timeIdx (dfCol df "left_pupil_size_mm") t0 t1))
        (rms_s2s s (restrictIdx timeIdx (dfCol df "right_pupil_size_mm") t0 t1)))
        (PFloat.fin 2) = PFloat.fin 0
      rw [rms_s2s_const_zero s hs0 _ hc1 hl1, rms_s2s_const_zero s hs0 _ hc2 hl2,
        show PFloat.add (PFloat.fin 0) (PFloat.fin 0) = PFloat.fin 0 by
          show PFloat.fin (0 + 0) = PFloat.fin 0
          rw [add_zero],
        show PFloat.div (PFloat.fin 0) (PFloat.fin 2) = PFloat.fin 0 by
          show (if (2 : ℚ) = 0 then (if (0 : ℚ) = 0 then PFloat.nan
            else if 0 < (0 : ℚ) then PFloat.inf else PFloat.ninf)
            else PFloat.fin (0 / 2)) = PFloat.fin 0
          rw [if_neg (by norm_num : ¬ (2 : ℚ) = 0), zero_div]]
    · show PFloat.div (PFloat.add
        (rms_s2s s (restrictIdx timeIdx (dfCol df "left_smooth_pupil_size_mm") t0 t1))
        (rms_s2s s (restrictIdx timeIdx (dfCol df "right_smooth_pupil_size_mm") t0 t1)))
        (PFloat.fin 2) = PFloat.fin 0
      rw [rms_s2s_const_zero s hs0 _ hc3 hl3, rms_s2s_const_zero s hs0 _ hc4 hl4,
        show PFloat.add (PFloat.fin 0) (PFloat.fin 0) = PFloat.fin 0 by
          show PFloat.fin (0 + 0) = PFloat.fin 0
          rw [add_zero],
        show PFloat.div (PFloat.fin 0) (PFloat.fin 2) = PFloat.fin 0 by
          show (if (2 : ℚ) = 0 then (if (0 : ℚ) = 0 then PFloat.nan
            else if 0 < (0 : ℚ) then PFloat.inf else PFloat.ninf)
            else PFloat.fin (0 / 2)) = PFloat.fin 0
          rw [if_neg (by norm_num : ¬ (2 : ℚ) = 0), zero_div]]

/-- Counterexample to Claim C8 as stated: a recording whose stable
interval holds a single frame.  The restricted pupil-size series are
perfectly constant, yet both signal-quality scores are NaN (the mean of an
empty squared-difference selection), which is neither non-negative nor 0. -/
theorem c8_signal_quality_counterexample :
    (calculate_signal_quality id [0] c8DegDf 0 0).raw_signal_quality = PFloat.nan
    ∧ (calculate_signal_quality id [0] c8DegDf 0 0).smooth_signal_quality = PFloat.nan
    ∧ (calculate_signal_quality id [0] c8DegDf 0 0).raw_signal_quality.isNonneg = false
    ∧ (calculate_signal_quality id [0] c8DegDf 0 0).smooth_signal_quality.isNonneg = false
    ∧ constFin (restrictIdx [0] (dfCol c8DegDf "left_pupil_size_mm") 0 0) = true
    ∧ constFin (restrictIdx [0] (dfCol c8DegDf "right_pupil_size_mm") 0 0) = true
    ∧ constFin (restrictIdx [0] (dfCol c8DegDf "left_smooth_pupil_size_mm") 0 0) = true
    ∧ constFin (restrictIdx [0] (dfCol c8DegDf "right_smooth_pupil_size_mm") 0 0) = true := by
  refine ⟨?_, ?_, ?_, ?_, ?_, ?_, ?_, ?_⟩ <;> with_unfolding_all decide

/-- Witness for the amended C8 on a two-frame constant recording: both
scores are non-negative and equal to 0. -/
theorem c8_signal_quality_nonneg_witness :
    (calculate_signal_quality id [0, 1] c8ConstDf 0 1).raw_signal_quality.isNonneg = true
    ∧ (calculate_signal_quality id [0, 1] c8ConstDf 0 1).smooth_signal_quality.isNonneg = true
    ∧ (calculate_signal_quality id [0, 1] c8ConstDf 0 1).raw_signal_quality = PFloat.fin 0
    ∧ (calculate_signal_quality id [0, 1] c8ConstDf 0 1).smooth_signal_quality = PFloat.fin 0 := by
  have h := c8_signal_quality_nonneg id [0, 1] c8ConstDf 0 1 (fun q hq => hq) rfl
    (by with_unfolding_all decide) (by with_unfolding_all decide)
    (by with_unfolding_all decide) (by with_unfolding_all decide)
  have hz := h.2.2 ⟨by with_unfolding_all decide, by with_unfolding_all decide,
    by with_unfolding_all decide, by with_unfolding_all decide,
    by with_unfolding_all decide, by with_unfolding_all decide,
    by with_unfolding_all decide, by with_unfolding_all decide⟩
  exact ⟨h.1, h.2.1, hz.1, hz.2⟩
